import Mathlib

/-!
Verification of the autochem repository's GAMESS/PSI4 input-building,
result-extraction and interaction-energy aggregation logic.

The Python sources are shallowly embedded: text lines are modelled as
`List Char` (one list entry per character), file contents as lists of
lines, Python dictionaries (which iterate in insertion order) as
association lists, and numeric values parsed from logs as rationals.
All definitions are computable so that theorems can be instantiated on
concrete inputs.
-/

namespace Autochem

/-- A line of text, one entry per character (model of a Python `str`). -/
abbrev Line := List Char

/-- Python `needle in haystack` for strings: substring containment. -/
def pyIn (needle hay : Line) : Bool :=
  hay.tails.any (fun t => needle.isPrefixOf t)

/-- Python `str.split()` with no argument: split on runs of whitespace,
dropping empty fields. -/
def pySplitWs (s : Line) : List Line :=
  (s.splitOnP (fun c => c.isWhitespace)).filter (fun w => ¬ w.isEmpty)

/-- Python `str.split(sep)` for a single-character separator: split on every
occurrence of `sep`, keeping empty fields. -/
def pySplitOn (sep : Char) (s : Line) : List Line :=
  s.splitOnP (fun c => c == sep)

/-- Python `str.lower()` restricted to ASCII, which is all the source uses. -/
def pyLower (s : Line) : Line := s.map Char.toLower

/-- Characters of the decimal representation of a natural number. -/
def natChars (n : Nat) : Line := (Nat.repr n).data

/-- Characters of Python `str(i)` for an integer. -/
def intChars (i : Int) : Line := (Int.repr i).data

/-!
### Claim C2 — `GamessResults` energy extraction (gamess_results.py)

Log files are lists of lines.  Numeric fields are parsed by `pyFloat`, a
model of Python's `float()` on the decimal literals GAMESS prints.
-/

/-- Value of a run of decimal digit characters. -/
def digitsVal (ds : Line) : Nat :=
  ds.foldl (fun n c => 10 * n + (c.toNat - '0'.toNat)) 0

/-- Model of Python `float()` on the `[-]digits[.digits]` literals found in
GAMESS logs. -/
def pyFloat (s : Line) : ℚ :=
  let sign : ℚ := if s.head? = some '-' then -1 else 1
  let rest : Line := if s.head? = some '-' then s.tail else s
  match pySplitOn '.' rest with
  | [i] => sign * (digitsVal i : ℚ)
  | [i, f] => sign * ((digitsVal i : ℚ) + (digitsVal f : ℚ) / (10 : ℚ) ^ f.length)
  | _ => 0

/-- Python `line.split()[-1]`: the last whitespace-separated word. -/
def pyLastWord (s : Line) : Line := (pySplitWs s).getLastD []

/-- `line.split()[-2].split('=')[1]`, used to read `GBASIS=<code>` from an
echoed `INPUT CARD> $BASIS` line. -/
def basisField (l : Line) : Line :=
  let ws := pySplitWs l
  (pySplitOn '=' (ws.getD (ws.length - 2) [])).getD 1 []

/-- `GamessResults.completed` (lines 49-54): scan every line, setting a flag
on the normal-termination marker. -/
def completed (lines : List Line) : Bool :=
  lines.foldl
    (fun found l =>
      if pyIn "EXECUTION OF GAMESS TERMINATED NORMALLY".data l then true else found)
    false

/-- Loop body of `GamessResults.calc_type` (lines 186-202): an `elif` chain
with an early `break` on `RUN TITLE`.  Returns `(fmo, mp2, scs)`. -/
def calcTypeAux : List Line → Bool → Bool → Bool → Bool × Bool × Bool
  | [], fmo, mp2, scs => (fmo, mp2, scs)
  | l :: ls, fmo, mp2, scs =>
    if pyIn "FMO".data l then calcTypeAux ls true mp2 scs
    else if pyIn "MPLEVL".data l then calcTypeAux ls fmo true scs
    else if pyIn "SCS".data l then calcTypeAux ls fmo mp2 true
    else if pyIn "RUN TITLE".data l then (fmo, mp2, scs)
    else calcTypeAux ls fmo mp2 scs

/-- `GamessResults.calc_type`. -/
def calc_type (lines : List Line) : Bool × Bool × Bool :=
  calcTypeAux lines false false false

/-- Accumulator of `GamessResults.mp2_data` (lines 204-217): `basis`, `HF`
and `MP2` start as the empty string (modelled `none`) and are overwritten on
every matching line, so the last occurrence wins. -/
structure Mp2Acc where
  basis : Option Line
  HF : Option ℚ
  MP2 : Option ℚ
  deriving DecidableEq, Repr

/-- One iteration of the `mp2_data` loop for marker suffix `t`. -/
def mp2Step (t : Line) (acc : Mp2Acc) (l : Line) : Mp2Acc :=
  let acc := if pyIn "Euncorr HF".data l
    then { acc with HF := some (pyFloat (pyLastWord l)) } else acc
  let acc := if pyIn "INPUT CARD> $BASIS".data l
    then { acc with basis := some (basisField l) } else acc
  if pyIn ("E corr ".data ++ t) l
    then { acc with MP2 := some (pyFloat (pyLastWord l)) } else acc

/-- `GamessResults.mp2_data`. -/
def mp2_data (lines : List Line) (t : Line) : Mp2Acc :=
  lines.foldl (mp2Step t) ⟨none, none, none⟩

/-- The non-FMO scan inside `GamessResults.get_data` (lines 227-238):
`basis` and `val` are overwritten on each matching line. -/
def scanNonFmo (lines : List Line) : Option Line × Option ℚ :=
  lines.foldl
    (fun acc l =>
      let acc := if pyIn "INPUT CARD> $BASIS".data l
        then (some (basisField l), acc.2) else acc
      if pyIn "TOTAL ENERGY =".data l
        then (acc.1, some (pyFloat (pyLastWord l))) else acc)
    (none, none)

/-- The `change_basis` code→human-readable table (lines 246-252);
`change_basis.get(basis, basis)` passes unknown codes through. -/
def changeBasisTable : List (Line × Line) :=
  [("CCD".data, "cc-pVDZ".data), ("CCT".data, "cc-pVTZ".data),
   ("CCQ".data, "cc-pVQZ".data), ("aCCD".data, "aug-cc-pVDZ".data),
   ("aCCT".data, "aug-cc-pVTZ".data), ("aCCQ".data, "aug-cc-pVQZ".data)]

/-- `change_basis.get(basis, basis)` applied to the scanned basis code. -/
def change_basis (b : Option Line) : Option Line :=
  b.map (fun c => ((changeBasisTable.lookup c).getD c))

/-- Result record of `GamessResults.get_data`: `(basis, HF, MP2)` (the
`file`/`path` components are identities of the log, not computed here). -/
structure GamessData where
  basis : Option Line
  HF : Option ℚ
  MP2 : Option ℚ
  deriving DecidableEq, Repr

/-- `GamessResults.get_data` (lines 219-254).  In the branch
`fmo ∧ ¬scs ∧ ¬mp2` the Python falls through every `if`/`elif` with
`basis`/`HF`/`MP2` unbound and raises `NameError`; that is `none` here. -/
def get_data (lines : List Line) : Option GamessData :=
  let t := calc_type lines
  let fmo := t.1
  let mp2 := t.2.1
  let scs := t.2.2
  if fmo && scs then
    let a := mp2_data lines "SCS".data
    some ⟨change_basis a.basis, a.HF, a.MP2⟩
  else if fmo && mp2 && !scs then
    let a := mp2_data lines "MP2".data
    some ⟨change_basis a.basis, a.HF, a.MP2⟩
  else if !fmo then
    let s := scanNonFmo lines
    if scs || mp2 then some ⟨change_basis s.1, none, s.2⟩
    else some ⟨change_basis s.1, s.2, none⟩
  else none

/-- The single energy value a `get_data` record carries for a non-FMO run
(`MP2` when a correlation method was detected, `HF` otherwise). -/
def extracted (d : GamessData) : Option ℚ :=
  match d.MP2 with
  | some v => some v
  | none => d.HF

/-- A fold that overwrites its accumulator on every line matching `p`
returns the value computed from the LAST matching line. -/
theorem foldl_overwrite_last {α : Type} (p : Line → Bool) (g : Line → α)
    (init : Option α) (lines : List Line) :
    lines.foldl (fun acc l => if p l then some (g l) else acc) init =
      (match (lines.filter p).getLast? with
        | some m => some (g m)
        | none => init) := by
  induction lines using List.reverseRecOn generalizing init with
  | nil => rfl
  | append_singleton ls l ih =>
    rw [List.foldl_append, List.filter_append]
    simp only [List.foldl_cons, List.foldl_nil, List.filter]
    by_cases h : p l
    · simp [h, List.getLast?_concat]
    · simp only [h, Bool.false_eq_true, if_false, List.append_nil]
      exact ih init

/-- The energy component of the non-FMO scan is an overwrite-on-match fold
over the `TOTAL ENERGY =` marker. -/
theorem scanNonFmo_snd (lines : List Line) :
    (scanNonFmo lines).2 =
      lines.foldl
        (fun acc l => if pyIn "TOTAL ENERGY =".data l
          then some (pyFloat (pyLastWord l)) else acc)
        none := by
  have key : ∀ (ls : List Line) (b : Option Line) (v : Option ℚ),
      (ls.foldl
        (fun acc l =>
          let acc := if pyIn "INPUT CARD> $BASIS".data l
            then (some (basisField l), acc.2) else acc
          if pyIn "TOTAL ENERGY =".data l
            then (acc.1, some (pyFloat (pyLastWord l))) else acc)
        (b, v)).2 =
      ls.foldl
        (fun acc l => if pyIn "TOTAL ENERGY =".data l
          then some (pyFloat (pyLastWord l)) else acc)
        v := by
    intro ls
    induction ls with
    | nil => intro b v; rfl
    | cons l ls ih =>
      intro b v
      simp only [List.foldl_cons]
      by_cases hB : pyIn "INPUT CARD> $BASIS".data l <;>
        by_cases hT : pyIn "TOTAL ENERGY =".data l <;>
        simp [hB, hT, ih]
  exact key lines none none

/-- The `MP2` component of `mp2_data` is an overwrite-on-match fold over the
`E corr <type>` marker. -/
theorem mp2_data_MP2 (lines : List Line) (t : Line) :
    (mp2_data lines t).MP2 =
      lines.foldl
        (fun acc l => if pyIn ("E corr ".data ++ t) l
          then some (pyFloat (pyLastWord l)) else acc)
        none := by
  have key : ∀ (ls : List Line) (a : Mp2Acc),
      (ls.foldl (mp2Step t) a).MP2 =
        ls.foldl
          (fun acc l => if pyIn ("E corr ".data ++ t) l
            then some (pyFloat (pyLastWord l)) else acc)
          a.MP2 := by
    intro ls
    induction ls with
    | nil => intro a; rfl
    | cons l ls ih =>
      intro a
      simp only [List.foldl_cons]
      rw [ih]
      have hstep : (mp2Step t a l).MP2 =
          (if pyIn ("E corr ".data ++ t) l
            then some (pyFloat (pyLastWord l)) else a.MP2) := by
        unfold mp2Step
        by_cases h1 : pyIn "Euncorr HF".data l <;>
          by_cases h2 : pyIn "INPUT CARD> $BASIS".data l <;>
          simp [h1, h2] <;> split <;> simp_all
      rw [hstep]
  exact key lines ⟨none, none, none⟩

/-!
### Claim C5 — `GamessJob.make_automatic_changes` (gamess.py lines 153-157)

The method reads `self.input.basis.gbasis` and writes
`self.input.mp2.scsopo`; only those two leaves of the settings tree are
relevant, so the settings object is modelled by a structure carrying them.
-/

/-- The slice of the merged GAMESS settings object read and written by
`make_automatic_changes`: `input.basis.gbasis` and `input.mp2.scsopo`.
`scsopo` holds whatever value the merged settings carry at the time the
method runs (the user's explicit value if one was supplied). -/
structure GamessInput where
  gbasis : Line
  scsopo : ℚ
  deriving DecidableEq, Repr

/-- `GamessJob.make_automatic_changes`:
`if self.input.basis.gbasis.lower() == 'cct': self.input.mp2.scsopo = 1.64`.
The assignment is unconditional once the basis test passes. -/
def make_automatic_changes (inp : GamessInput) : GamessInput :=
  if pyLower inp.gbasis = "cct".data then { inp with scsopo := 164/100 } else inp

/-!
### Claim C1 — `GamessJob.fmo_meta` (gamess.py lines 177-205)

`self.mol.fragments` is a dict mapping fragment names to fragment data;
each entry contributes the first and last (1-based) atom index of the
fragment and its net charge.  The dict's iteration order is arbitrary from
the caller's point of view, so it is modelled as a list of fragments in
iteration order.
-/

/-- One entry of `self.mol.fragments`: `data['atoms'][0].index`,
`data['atoms'][-1].index` and `data['charge']`. -/
structure Frag where
  first : Nat
  last : Nat
  charge : Int
  deriving DecidableEq, Repr

/-- The INDAT record built for one fragment:
`f"0,{data['atoms'][0].index},-{data['atoms'][-1].index},"`. -/
def indatChars (f : Frag) : Line :=
  ['0', ','] ++ natChars f.first ++ [',', '-'] ++ natChars f.last ++ [',']

/-- The ICHARG record built for one fragment: `str(data['charge'])`. -/
def chargChars (f : Frag) : Line := intChars f.charge

/-- The sort key used by `fmo_meta`.  The source sorts the dict items with
`key = lambda val: int(val[1]['indat'].split(',')[1])`: it re-parses field 1
of the INDAT record it has just built, which is exactly the fragment's
first atom index. -/
def fragLE (a b : Frag) : Prop := a.first ≤ b.first

instance : DecidableRel fragLE := fun a b => Nat.decLe a.first b.first

instance : IsTotal Frag fragLE := ⟨fun a b => Nat.le_total a.first b.first⟩

instance : IsTrans Frag fragLE := ⟨fun _ _ _ => Nat.le_trans⟩

/-- `sorted_info = sorted(info.items(), key = ...)`: Python's `sorted` is a
stable sort on the key; `List.insertionSort` is likewise stable. -/
def sortedInfo (frags : List Frag) : List Frag := List.insertionSort fragLE frags

/-- Result of `fmo_meta`: the `self.indat` and `self.charg` lists. -/
structure FmoMeta where
  indat : List Line
  charg : List Line
  deriving DecidableEq, Repr

/-- `GamessJob.fmo_meta`: build one INDAT record and one ICHARG record per
fragment, sort by the first-atom-index key, emit both lists in that order
and append the sentinel record `'0'` to the INDAT list. -/
def fmo_meta (frags : List Frag) : FmoMeta :=
  { indat := (sortedInfo frags).map indatChars ++ [['0']],
    charg := (sortedInfo frags).map chargChars }

/-- Strict version of the sort key relation, used to show the sorted order
is unique once first atom indices are distinct. -/
def fragLT (a b : Frag) : Prop := a.first < b.first

instance : IsAntisymm Frag fragLT :=
  ⟨fun _ _ h1 h2 => absurd (Nat.lt_trans h1 h2) (Nat.lt_irrefl _)⟩

/-- With pairwise-distinct first atom indices, any two iteration orders of
the fragment map sort to the same list. -/
theorem sortedInfo_eq_of_perm (fs fs2 : List Frag) (hperm : fs2.Perm fs)
    (hnodup : (fs.map Frag.first).Nodup) :
    sortedInfo fs2 = sortedInfo fs := by
  have hp : (sortedInfo fs2).Perm (sortedInfo fs) :=
    ((List.perm_insertionSort fragLE fs2).trans hperm).trans
      (List.perm_insertionSort fragLE fs).symm
  have hstrict : ∀ l : List Frag, (l.map Frag.first).Nodup →
      List.Sorted fragLE l → List.Sorted fragLT l := by
    intro l hnd hs
    have hne : l.Pairwise (fun a b => a.first ≠ b.first) :=
      List.pairwise_map.mp hnd
    exact (hs.and hne).imp (fun h => Nat.lt_of_le_of_ne h.1 h.2)
  have hnd2 : ((sortedInfo fs).map Frag.first).Nodup := by
    refine (List.Perm.nodup_iff ?_).mpr hnodup
    exact (List.perm_insertionSort fragLE fs).map Frag.first
  have hnd3 : ((sortedInfo fs2).map Frag.first).Nodup := by
    refine (List.Perm.nodup_iff ?_).mpr hnd2
    exact hp.map Frag.first
  exact List.eq_of_perm_of_sorted hp
    (hstrict _ hnd3 (List.sorted_insertionSort fragLE fs2))
    (hstrict _ hnd2 (List.sorted_insertionSort fragLE fs))

/-!
### Claim C6 — `calculate_energies` (int_energies.py lines 57-158)

`group_files` hands `calculate_energies` a dict mapping each molecular
system to its list of job rows `[file, basis, hf, mp2]`.
-/

/-- A per-job row as stored by `group_files`: `[file, basis, hf, mp2]`
(plus role tags appended later). -/
abbrev JobRow := List Line

/-- Type the commented-out `return results_dict, purely_ionic` would have. -/
abbrev ResultsDict := List (Line × List (Line × ℚ))

/-- `calculate_energies`: the only live statements of the function body are
`purely_ionic = True`, `results_dict = {}` and the loop
`for k, v in d.items(): print(k, v)`; the inner helpers are never called,
the aggregation loop and the `return results_dict, purely_ionic` are
commented out, so control falls off the end and the function returns
Python `None` for every input. -/
def calculate_energies (d : List (Line × List JobRow)) :
    Option (ResultsDict × Bool) :=
  none

/-- Modelled from the spec: the docstring formula of `calculate_energies`
(`INT = E_COMPLEX - SUM(E_ION)`) together with its dead assignment
`elec_hf = (complex_hf - sum_frag_hf) * 2625.5` — interaction energy in
kJ/mol from the complex energy and the separable-fragment energies
(Hartree), which the live code never produces. -/
def interaction_energy (complexE : ℚ) (frags : List ℚ) : ℚ :=
  (complexE - frags.sum) * (26255/10)

/-- `calculate_interaction_energies` (lines 276-293) executes
`new_data, purely_ionic = calculate_energies(data)`; unpacking the `None`
returned by `calculate_energies` raises `TypeError`, so no table is ever
produced. -/
def calculate_interaction_energies (d : List (Line × List JobRow)) :
    Option (ResultsDict × Bool) :=
  match calculate_energies d with
  | none => none
  | some r => some r

/-!
### Claim C7 — `rank_configs` (int_energies.py lines 228-274)

Each cation-anion family is the list of `(path, total_mp2)` pairs collected
on lines 253-255; the paths are dict keys and hence distinct.
-/

/-- Sort relation of `sorted(energies, key = lambda tup: tup[1])`. -/
def energyLE (a b : Line × ℚ) : Prop := a.2 ≤ b.2

instance : DecidableRel energyLE := fun a b => Rat.instDecidableLe a.2 b.2

instance : IsTotal (Line × ℚ) energyLE := ⟨fun a b => le_total a.2 b.2⟩

instance : IsTrans (Line × ℚ) energyLE := ⟨fun _ _ _ => le_trans⟩

/-- Per-family body of `rank_configs` (lines 253-260) followed by the
rank-order rebuild (lines 264-273): sort the `(path, total_mp2)` pairs
ascending on energy, then `enumerate(sorted_vals, 1)` assigns each path its
rank and its `deltaE = total_mp2 - sorted_vals[0][1]`.  Output entries are
`(path, energy, rank, deltaE)` in rank order. -/
def rank_configs_family (configs : List (Line × ℚ)) :
    List (Line × ℚ × ℕ × ℚ) :=
  match List.insertionSort energyLE configs with
  | [] => []
  | m :: rest =>
    ((m :: rest).enum).map (fun p => (p.2.1, p.2.2, p.1 + 1, p.2.2 - m.2))

/-- `enumerate(·, 1)` hands out consecutive ranks `1, 2, …, n`. -/
theorem enumFrom_ranks {α : Type} :
    ∀ (n : ℕ) (l : List α),
      (List.enumFrom n l).map (fun p => p.1 + 1) = List.range' (n + 1) l.length
  | _, [] => rfl
  | n, _ :: l => by
    simpa [List.enumFrom, List.range'] using enumFrom_ranks (n + 1) l

/-!
### Claim C10 — `GamessJob.file_basename` (gamess.py lines 241-249) and
`PsiJob.file_basename` (psi.py lines 213-223)
-/

/-- Python `dict.get(key, default)` for a small literal string dict. -/
def pyGet (tbl : List (Line × Line)) (key : Line) (dflt : Line) : Line :=
  match tbl with
  | [] => dflt
  | (k, v) :: rest => if key = k then v else pyGet rest key dflt

/-- `GamessJob.file_basename`: explicit filename wins, otherwise
`{'optimize': 'opt', 'energy': 'spec', 'hessian': 'hess'}.get(runtyp, 'file')`. -/
def gamess_file_basename (filename : Option Line) (runtyp : Line) : Line :=
  match filename with
  | some f => f
  | none =>
    pyGet [("optimize".data, "opt".data), ("energy".data, "spec".data),
      ("hessian".data, "hess".data)] runtyp "file".data

/-- The `nom` loop of `PsiJob.file_basename`: the LAST key of
`self.input.run` different from `'additional'` (`none` models the
`NameError` raised when no such key exists and `nom` stays unbound). -/
def psi_nom (runKeys : List Line) : Option Line :=
  runKeys.foldl (fun nom k => if k ≠ "additional".data then some k else nom) none

/-- `PsiJob.file_basename`: explicit filename wins, otherwise
`{'optimize': 'opt', 'energy': 'spec', 'frequency': 'hess'}.get(nom, 'file')`. -/
def psi_file_basename (filename : Option Line) (runKeys : List Line) :
    Option Line :=
  match filename with
  | some f => some f
  | none =>
    (psi_nom runKeys).map (fun nom =>
      pyGet [("optimize".data, "opt".data), ("energy".data, "spec".data),
        ("frequency".data, "hess".data)] nom "file".data)

/-- `write_file` in both builders writes to `f"{self.base_name}.{filetype}"`. -/
def written_filename (base ft : Line) : Line := base ++ '.' :: ft

/-!
### Claim C8 — `PsiJob.add_run` (psi.py lines 176-211)

`self.input.run` is a dict iterated in declaration order; a non-`additional`
key maps a run keyword to a method string, the `additional` key maps to a
dict of extra keyword=value pairs.
-/

/-- A value of the `run` dict. -/
inductive RunVal where
  | str (s : Line)
  | addl (kvs : List (Line × Line))
  deriving DecidableEq, Repr

/-- The string stored under a non-`additional` key (the source only ever
keeps a plain method string there). -/
def runScalar : RunVal → Line
  | .str s => s
  | .addl _ => []

/-- The dict stored under the `additional` key. -/
def runAddl : RunVal → List (Line × Line)
  | .str _ => []
  | .addl kvs => kvs

/-- `counter = 1; for k1, v1 in ...: res.append((counter, k1, v1));
counter += 1`. -/
def addlCounters : ℕ → List (Line × Line) → List (ℕ × Line × Line)
  | _, [] => []
  | c, (k1, v1) :: rest => (c, k1, v1) :: addlCounters (c + 1) rest

/-- Tuples contributed to `res` by one `run` entry: a non-`additional` key
is tagged 0, the `additional` sub-entries are tagged 1, 2, … in their
declaration order. -/
def runEntryTuples (kv : Line × RunVal) : List (ℕ × Line × Line) :=
  (if kv.1 ≠ "additional".data then [(0, kv.1, runScalar kv.2)] else []) ++
  (if kv.1 = "additional".data then addlCounters 1 (runAddl kv.2) else [])

/-- Sort relation of `res = sorted(res, key = lambda val: val[0])`. -/
def countLE (a b : ℕ × Line × Line) : Prop := a.1 ≤ b.1

instance : DecidableRel countLE := fun a b => Nat.decLe a.1 b.1

instance : IsTotal (ℕ × Line × Line) countLE := ⟨fun a b => Nat.le_total a.1 b.1⟩

instance : IsTrans (ℕ × Line × Line) countLE := ⟨fun _ _ _ => Nat.le_trans⟩

/-- `string = f"{res[0][1]}('{res[0][2]}'"` followed by
`string += f", {val[1]}='{val[2]}'"` for every later tuple and a closing
parenthesis; `res[0]` raises `IndexError` when the run dict is empty
(modelled `none`). -/
def renderCall (res : List (ℕ × Line × Line)) : Option Line :=
  match res with
  | [] => none
  | r0 :: rest =>
    some (r0.2.1 ++ "(\x27".data ++ r0.2.2 ++ "\x27".data ++
      (rest.map (fun t =>
        ", ".data ++ t.2.1 ++ "=\x27".data ++ t.2.2 ++ "\x27".data)).flatten ++
      ")".data)

/-- `PsiJob.add_run`: tag each entry, stable-sort on the tag and render the
function-call-style run directive. -/
def add_run (run : List (Line × RunVal)) : Option Line :=
  renderCall (List.insertionSort countLE (run.flatMap runEntryTuples))

/-!
### Claim C3 — `GamessResults.get_equil_coords` (gamess_results.py 100-169)

The geometry-line pattern `[A-Za-z]{1,2}(\s*\D?[0-9]{1,3}\.[0-9]{1,10}){4}`
is modelled by a nondeterministic matcher: a `Matcher` maps the remaining
character list to the list of suffixes left by each possible match, and
`re.search` succeeds iff some start position admits a match.
-/

/-- Nondeterministic matcher: every possible remainder after a match. -/
abbrev Matcher := List Char → List (List Char)

/-- Match one character of a class. -/
def mChar (p : Char → Bool) : Matcher
  | [] => []
  | c :: cs => if p c then [cs] else []

/-- Sequencing of patterns. -/
def mSeq (m1 m2 : Matcher) : Matcher := fun cs => (m1 cs).flatMap m2

/-- `?`: zero or one occurrence. -/
def mOpt (m : Matcher) : Matcher := fun cs => cs :: m cs

/-- Exactly `n` repetitions. -/
def mExact (m : Matcher) : ℕ → Matcher
  | 0 => fun cs => [cs]
  | n + 1 => mSeq m (mExact m n)

/-- At most `n` repetitions. -/
def mAtMost (m : Matcher) : ℕ → Matcher
  | 0 => fun cs => [cs]
  | n + 1 => fun cs => cs :: (m cs).flatMap (mAtMost m n)

/-- `{lo,hi}`: between `lo` and `hi` repetitions. -/
def mRange (m : Matcher) (lo hi : ℕ) : Matcher :=
  mSeq (mExact m lo) (mAtMost m (hi - lo))

/-- `\s*`: drop any number of leading whitespace characters. -/
def mWsStar : Matcher
  | [] => [[]]
  | c :: cs => if c.isWhitespace then (c :: cs) :: mWsStar cs else [c :: cs]

/-- `[A-Za-z]`. -/
def isAsciiLetter (c : Char) : Bool :=
  ('A' ≤ c && c ≤ 'Z') || ('a' ≤ c && c ≤ 'z')

/-- `[0-9]`. -/
def isAsciiDigit (c : Char) : Bool := '0' ≤ c && c ≤ '9'

/-- One numeric field `\s*\D?[0-9]{1,3}\.[0-9]{1,10}`. -/
def numGroup : Matcher :=
  mSeq mWsStar
    (mSeq (mOpt (mChar (fun c => !isAsciiDigit c)))
      (mSeq (mRange (mChar isAsciiDigit) 1 3)
        (mSeq (mChar (fun c => c == '.'))
          (mRange (mChar isAsciiDigit) 1 10))))

/-- The full geometry-line pattern: 1-2 letters then four numeric fields. -/
def geomPat : Matcher :=
  mSeq (mRange (mChar isAsciiLetter) 1 2) (mExact numGroup 4)

/-- `re.search(regex, line)`: try every start position. -/
def geomSearch (l : Line) : Bool :=
  l.tails.any (fun t => !(geomPat t).isEmpty)

/-- `line[:-1]` applied when `line.endswith('\n')`. -/
def stripNl (l : Line) : Line :=
  if l.getLast? = some '\n' then l.dropLast else l

/-- Result of the log scan: the collected `equil` and `rerun` line lists. -/
structure EquilScan where
  equil : List Line
  rerun : List Line
  deriving DecidableEq, Repr

/-- The log scan of `get_equil_coords` (lines 105-126): the two markers set
`found`/`find`, any geometry-pattern line is appended (newline stripped) to
whichever collections are active, and a bare `'\n'` line (the `line is
'\n'` identity test, true for the interned one-character string) resets
both flags.  Marker tests and appends happen before the reset, as in the
source. -/
def scanLogAux : List Line → Bool → Bool → List Line → List Line → EquilScan
  | [], _, _, eq, rr => ⟨eq, rr⟩
  | l :: ls, found0, find0, eq, rr =>
    let found := if pyIn "EQUILIBRIUM GEOMETRY LOCATED".data l then true else found0
    let find := if pyIn "ALWAYS THE LAST POINT COMPUTED".data l then true else find0
    let eq2 := if found && geomSearch l then eq ++ [stripNl l] else eq
    let rr2 := if find && geomSearch l then rr ++ [stripNl l] else rr
    let found2 := if l = "\n".data then false else found
    let find2 := if l = "\n".data then false else find
    scanLogAux ls found2 find2 eq2 rr2

/-- The whole-log scan. -/
def scanLog (lines : List Line) : EquilScan := scanLogAux lines false false [] []

/-- Python `str.replace(pat, rep)`, fuel-structured so that it reduces in
the kernel: replace every occurrence, scanning left to right without
overlap.  Each step consumes at least one character, so `l.length` fuel
always suffices. -/
def replaceAllFuel (pat rep : Line) : ℕ → Line → Line
  | 0, l => l
  | _ + 1, [] => []
  | fuel + 1, c :: cs =>
    if pat ≠ [] ∧ pat.isPrefixOf (c :: cs) then
      rep ++ replaceAllFuel pat rep fuel ((c :: cs).drop pat.length)
    else c :: replaceAllFuel pat rep fuel cs

/-- Python `str.replace(pat, rep)`. -/
def replaceAll (pat rep : Line) (l : Line) : Line :=
  replaceAllFuel pat rep l.length l

/-- Outcome of `get_equil_coords`: each field records a file-system effect
of the source (directory created, file written with which content). -/
structure RecoveryResult where
  equilXyz : Option (List Line)
  rerunMade : Bool
  rerunXyz : Option (List Line)
  rerunInp : Option (List Line)
  rerunJob : Option Line
  deriving DecidableEq, Repr

/-- `GamessResults.get_equil_coords` (lines 100-169) as a function of the
log name (`self.log`), log text, original input deck text, and job script
text when such a file exists.  With equilibrium coordinates it only writes
`equil.xyz`; with last-point coordinates only, it creates `rerun/`, writes
`rerun/rerun.xyz`, rewrites the job script's filename references
(`<base>.inp` → `rerun.inp` first, then `<log>` → `rerun.<ext>`), and
builds `rerun/rerun.inp` from every input line strictly before the first
geometry-pattern line, the new coordinates, and a `' $END'` terminator;
with neither it writes nothing. -/
def get_equil_coords (logName : Line) (logLines : List Line)
    (inpLines : List Line) (jobText : Option Line) : RecoveryResult :=
  if (scanLog logLines).equil.length > 0 then
    ⟨some (scanLog logLines).equil, false, none, none, none⟩
  else if (scanLog logLines).rerun.length > 0 then
    ⟨none, true, some (scanLog logLines).rerun,
      some (inpLines.takeWhile (fun l => !(geomSearch l)) ++
        (scanLog logLines).rerun.map (fun l => l ++ "\n".data) ++
        [" $END".data]),
      jobText.map (fun j =>
        replaceAll logName ("rerun.".data ++ logName.drop (logName.length - 3))
          (replaceAll (logName.take (logName.length - 3) ++ "inp".data)
            "rerun.inp".data j))⟩
  else ⟨none, false, none, none, none⟩

/-!
### Claim C4 — `GamessJob.order_header` (gamess.py lines 121-151)

`self.unordered_header` is the list of one-line section strings produced by
`parse_settings`, one per top-level key of the settings dict; dict keys are
unique, so the section names of the input lines never repeat.
-/

/-- `line.split()[0][1:]`: the section name of a header line (first token
with its leading `$` removed). -/
def sectionName (l : Line) : Line := ((pySplitWs l).getD 0 []).drop 1

/-- `line.split()[0]`: the raw first token of a header line. -/
def firstToken (l : Line) : Line := (pySplitWs l).getD 0 []

/-- The canonical section order for the active mode (lines 122-125). -/
def desired (fmo : Bool) : List Line :=
  if fmo then
    ["SYSTEM".data, "CONTRL".data, "GDDI".data, "STATPT".data, "SCF".data,
     "BASIS".data, "FMO".data, "MP2".data]
  else
    ["SYSTEM".data, "CONTRL".data, "STATPT".data, "SCF".data, "BASIS".data,
     "MP2".data]

/-- Python `list.insert(-k, x)`: insert before position `len - k`; both
Python and ℕ subtraction clamp the position at 0. -/
def pyInsertFromEnd (k : ℕ) (l : List Line) (x : Line) : List Line :=
  l.take (l.length - k) ++ x :: l.drop (l.length - k)

/-- First phase of `order_header` (lines 128-133): `for i in desired: for
line in self.unordered_header: if line.split()[0][1:] == i:
self.header.append(line)`. -/
def canonicalPass (fmo : Bool) (unordered : List Line) : List Line :=
  (desired fmo).flatMap (fun i => unordered.filter (fun l => sectionName l = i))

/-- Second phase (lines 134-143, the `for`/`else` arm): insert every line
whose section is not canonical and not `FMO`/`GDDI` at position -5 (FMO
mode) or -4. -/
def insertionPass (fmo : Bool) (unordered : List Line) (hdr : List Line) :
    List Line :=
  unordered.foldl
    (fun h l =>
      if sectionName l ∉ desired fmo ∧ sectionName l ≠ "FMO".data ∧
          sectionName l ≠ "GDDI".data then
        pyInsertFromEnd (if fmo then 5 else 4) h l
      else h)
    hdr

/-- Third phase (lines 145-149): `del self.header[index]` on a `$STATPT`
line while enumerating `self.header` — after a deletion at `index` the
enumeration continues at the element that was two places further on, which
the skip in this model reproduces. -/
def pyDelStatpt : List Line → List Line
  | [] => []
  | l :: rest =>
    if firstToken l = "$STATPT".data then
      match rest with
      | [] => []
      | r :: rs => r :: pyDelStatpt rs
    else l :: pyDelStatpt rest

/-- `GamessJob.order_header`: canonical pass, then insertion pass, then the
`$STATPT` deletion for non-optimisations (the final `"".join` kept as a
list of lines). -/
def order_header (fmo : Bool) (runtyp : Line) (unordered : List Line) :
    List Line :=
  if runtyp ≠ "optimize".data then
    pyDelStatpt (insertionPass fmo unordered (canonicalPass fmo unordered))
  else insertionPass fmo unordered (canonicalPass fmo unordered)

/-- The section names of a header's canonical lines, in order. -/
def canonNames (fmo : Bool) (lines : List Line) : List Line :=
  (lines.map sectionName).filter (fun n => n ∈ desired fmo)

/-!
### Claim C9 — `group_files` (int_energies.py lines 8-55)
-/

/-- `'/'.join(parts)`. -/
def pyJoin (sep : Char) : List Line → Line
  | [] => []
  | p :: ps => p ++ (ps.map (fun q => sep :: q)).flatten

/-- `split_path` (lines 13-34).  `upto` keeps its initial value 0 both when
no segment is a run-type directory and when segment 0 is one; in either
case `path_to_mol` is never assigned and `'/'.join(path_to_mol)` raises
`UnboundLocalError` (modelled `none`).  Otherwise the path splits into the
segments before the run-type directory and those after it. -/
def split_path (path : Line) : Option (Line × Line) :=
  let path_split := pySplitOn '/' path
  let upto := (path_split.findIdx? (fun part =>
    part == "opt".data || part == "spec".data || part == "hess".data)).getD 0
  if upto ≠ 0 then
    some (pyJoin '/' (path_split.take upto), pyJoin '/' (path_split.drop (upto + 1)))
  else none

/-- `file, path, basis, hf, mp2 = line.split(',')`: raises `ValueError`
unless the row has exactly five comma-separated fields. -/
def parseRow5 (line : Line) : Option (Line × Line × Line × Line × Line) :=
  match pySplitOn ',' line with
  | [f, p, b, h, m] => some (f, p, b, h, m)
  | _ => none

/-- Outcome of `group_files`: the groups dict (an association list in
insertion order) or the uncaught exception that aborted the pass. -/
inductive GroupsResult where
  | ok (groups : List (Line × List JobRow))
  | err (msg : Line)
  deriving DecidableEq, Repr

/-- `groups[molecule] = [[...]]` on first sight of a key,
`groups[molecule].append([...])` afterwards. -/
def addToGroups (groups : List (Line × List JobRow)) (key : Line)
    (row : JobRow) : List (Line × List JobRow) :=
  if groups.any (fun g => g.1 = key) then
    groups.map (fun g => if g.1 = key then (g.1, g.2 ++ [row]) else g)
  else groups ++ [(key, [row])]

/-- One iteration of the `group_files` row loop (lines 44-52). -/
def group_files_row (groups : List (Line × List JobRow)) (line : Line) :
    GroupsResult :=
  match parseRow5 line with
  | none => .err "ValueError: line does not split into five fields".data
  | some (f, p, b, h, m) =>
    match split_path p with
    | none => .err "UnboundLocalError: path_to_mol".data
    | some (molecule, path_to_file) =>
      .ok (addToGroups groups molecule [path_to_file ++ '/' :: f, b, h, m])

/-- The `group_files` row loop: an uncaught exception in any row aborts the
whole pass (there is no `try`/`except` anywhere in the module). -/
def group_files_loop :
    List (Line × List JobRow) → List Line → GroupsResult
  | groups, [] => .ok groups
  | groups, line :: rest =>
    match group_files_row groups line with
    | .err m => .err m
    | .ok g2 => group_files_loop g2 rest

/-- `group_files(csv, header=True)` drops the header row then runs the row
loop.  (With `header=False` the source executes `file_obj = f.readlines`
without calling it and iterating the bound method raises `TypeError`.) -/
def group_files (lines : List Line) (header : Bool) : GroupsResult :=
  if header then group_files_loop [] (lines.drop 1)
  else .err "TypeError: file_obj is a bound method".data

/-- A CSV row the loop can digest: five fields and a recognisable path. -/
def rowOk (line : Line) : Bool :=
  match parseRow5 line with
  | none => false
  | some (_, p, _, _, _) => (split_path p).isSome

end Autochem

namespace Autochem

/-- C1: `fmo_meta` emits one record `0,<first>,-<last>,` per fragment, in
ascending order of first atom index regardless of the fragment map's
iteration order, followed by exactly one trailing sentinel record `0`;
the ICHARG list is emitted in the same sorted order, one charge per
fragment. -/
theorem C1_fmo_indat_sorted_sentinel (fs fs2 : List Frag)
    (hperm : fs2.Perm fs) (hnodup : (fs.map Frag.first).Nodup) :
    (fmo_meta fs).indat = (sortedInfo fs).map indatChars ++ [['0']] ∧
    (sortedInfo fs).Perm fs ∧
    List.Sorted fragLE (sortedInfo fs) ∧
    (∀ r ∈ (sortedInfo fs).map indatChars, r ≠ ['0']) ∧
    (fmo_meta fs).indat.getLast? = some ['0'] ∧
    (fmo_meta fs).charg = (sortedInfo fs).map chargChars ∧
    fmo_meta fs2 = fmo_meta fs := by
  refine ⟨rfl, List.perm_insertionSort fragLE fs,
    List.sorted_insertionSort fragLE fs, ?_, ?_, rfl, ?_⟩
  · intro r hr
    obtain ⟨f, _, hf⟩ := List.mem_map.mp hr
    subst hf
    simp [indatChars]
  · simp [fmo_meta]
  · unfold fmo_meta
    rw [sortedInfo_eq_of_perm fs fs2 hperm hnodup]

/-- C1 witness: three fragments presented in scrambled map order. -/
theorem C1_witness :
    ([⟨29, 35, 0⟩, ⟨1, 7, -1⟩, ⟨8, 28, 1⟩] : List Frag).Perm
      [⟨8, 28, 1⟩, ⟨29, 35, 0⟩, ⟨1, 7, -1⟩] ∧
    (([⟨8, 28, 1⟩, ⟨29, 35, 0⟩, ⟨1, 7, -1⟩] : List Frag).map Frag.first).Nodup ∧
    ((fmo_meta [⟨8, 28, 1⟩, ⟨29, 35, 0⟩, ⟨1, 7, -1⟩]).indat =
        (sortedInfo [⟨8, 28, 1⟩, ⟨29, 35, 0⟩, ⟨1, 7, -1⟩]).map indatChars ++ [['0']] ∧
      (sortedInfo [⟨8, 28, 1⟩, ⟨29, 35, 0⟩, ⟨1, 7, -1⟩]).Perm
        [⟨8, 28, 1⟩, ⟨29, 35, 0⟩, ⟨1, 7, -1⟩] ∧
      List.Sorted fragLE (sortedInfo [⟨8, 28, 1⟩, ⟨29, 35, 0⟩, ⟨1, 7, -1⟩]) ∧
      (∀ r ∈ (sortedInfo [⟨8, 28, 1⟩, ⟨29, 35, 0⟩, ⟨1, 7, -1⟩]).map indatChars, r ≠ ['0']) ∧
      (fmo_meta [⟨8, 28, 1⟩, ⟨29, 35, 0⟩, ⟨1, 7, -1⟩]).indat.getLast? = some ['0'] ∧
      (fmo_meta [⟨8, 28, 1⟩, ⟨29, 35, 0⟩, ⟨1, 7, -1⟩]).charg =
        (sortedInfo [⟨8, 28, 1⟩, ⟨29, 35, 0⟩, ⟨1, 7, -1⟩]).map chargChars ∧
      fmo_meta [⟨29, 35, 0⟩, ⟨1, 7, -1⟩, ⟨8, 28, 1⟩] =
        fmo_meta [⟨8, 28, 1⟩, ⟨29, 35, 0⟩, ⟨1, 7, -1⟩]) ∧
    (fmo_meta [⟨8, 28, 1⟩, ⟨29, 35, 0⟩, ⟨1, 7, -1⟩]).indat =
      ["0,1,-7,".data, "0,8,-28,".data, "0,29,-35,".data, "0".data] :=
  ⟨by decide, by decide,
    C1_fmo_indat_sorted_sentinel _ _ (by decide) (by decide), by decide⟩

/-- C6 (code bug): the live code of `calculate_energies` returns `None` for
every grouped input — the aggregation and both returns are commented out —
so `calculate_interaction_energies` never produces a table; the documented
formula the claim describes, applied to complex -100.0 Hartree and
fragments -40.0 and -59.8 Hartree, gives -525.1 kJ/mol. -/
theorem C6_aggregation_dead :
    (∀ d, calculate_energies d = none) ∧
    (∀ d, calculate_interaction_energies d = none) ∧
    interaction_energy (-100) [(-40 : ℚ), -299/5] = -5251/10 :=
  ⟨fun _ => rfl, fun _ => rfl, by
    norm_num [interaction_energy, List.sum_cons, List.sum_nil]⟩

/-- C7: within one cation-anion family, `rank_configs` sorts the
configurations by correlated energy ascending, assigns consecutive ranks
1..n in that order, and sets every configuration's `deltaE` to its own
energy minus the family minimum (the rank-1 energy). -/
theorem C7_ranking (configs : List (Line × ℚ)) (h : configs ≠ []) :
    ∃ m rest, List.insertionSort energyLE configs = m :: rest ∧
      rank_configs_family configs =
        ((m :: rest).enum).map (fun p => (p.2.1, p.2.2, p.1 + 1, p.2.2 - m.2)) ∧
      (rank_configs_family configs).map (fun e => e.2.2.1) =
        List.range' 1 configs.length ∧
      List.Sorted energyLE (m :: rest) ∧
      (m :: rest).Perm configs ∧
      (∀ e ∈ rank_configs_family configs, e.2.2.2 = e.2.1 - m.2) ∧
      (∀ x ∈ configs, m.2 ≤ x.2) := by
  cases hs : List.insertionSort energyLE configs with
  | nil =>
    have hp : configs.Perm ([] : List (Line × ℚ)) := by
      have hq := (List.perm_insertionSort energyLE configs).symm
      rwa [hs] at hq
    exact absurd hp.eq_nil h
  | cons m rest =>
    have hsorted : List.Sorted energyLE (m :: rest) := by
      rw [← hs]; exact List.sorted_insertionSort energyLE configs
    have hperm : (m :: rest).Perm configs := by
      rw [← hs]; exact List.perm_insertionSort energyLE configs
    have hfam : rank_configs_family configs =
        ((m :: rest).enum).map (fun p => (p.2.1, p.2.2, p.1 + 1, p.2.2 - m.2)) := by
      unfold rank_configs_family
      rw [hs]
    refine ⟨m, rest, rfl, hfam, ?_, hsorted, hperm, ?_, ?_⟩
    · rw [hfam, List.map_map]
      have : ((fun e : Line × ℚ × ℕ × ℚ => e.2.2.1) ∘
          (fun p : ℕ × Line × ℚ => (p.2.1, p.2.2, p.1 + 1, p.2.2 - m.2))) =
          (fun p : ℕ × Line × ℚ => p.1 + 1) := rfl
      rw [this, List.enum, enumFrom_ranks 0 (m :: rest), hperm.length_eq]
    · intro e he
      rw [hfam] at he
      obtain ⟨p, _, hp⟩ := List.mem_map.mp he
      rw [← hp]
    · intro x hx
      have hx2 : x ∈ m :: rest := hperm.symm.subset hx
      rcases List.mem_cons.mp hx2 with h1 | h1
      · rw [h1]
      · exact List.rel_of_sorted_cons hsorted x h1

/-- C7 witness: the spec's ranking scenario — energies -10, -12, -11 get
ranks 1:-12, 2:-11, 3:-10 and gaps 0, 1, 2. -/
theorem C7_witness :
    (([("a".data, (-10 : ℚ)), ("b".data, -12), ("c".data, -11)] :
        List (Line × ℚ)) ≠ []) ∧
    (∃ m rest, List.insertionSort energyLE
        [("a".data, (-10 : ℚ)), ("b".data, -12), ("c".data, -11)] = m :: rest ∧
      rank_configs_family [("a".data, (-10 : ℚ)), ("b".data, -12), ("c".data, -11)] =
        ((m :: rest).enum).map (fun p => (p.2.1, p.2.2, p.1 + 1, p.2.2 - m.2)) ∧
      (rank_configs_family
          [("a".data, (-10 : ℚ)), ("b".data, -12), ("c".data, -11)]).map
          (fun e => e.2.2.1) =
        List.range' 1 ([("a".data, (-10 : ℚ)), ("b".data, -12),
          ("c".data, -11)] : List (Line × ℚ)).length ∧
      List.Sorted energyLE (m :: rest) ∧
      (m :: rest).Perm [("a".data, (-10 : ℚ)), ("b".data, -12), ("c".data, -11)] ∧
      (∀ e ∈ rank_configs_family
          [("a".data, (-10 : ℚ)), ("b".data, -12), ("c".data, -11)],
        e.2.2.2 = e.2.1 - m.2) ∧
      (∀ x ∈ ([("a".data, (-10 : ℚ)), ("b".data, -12), ("c".data, -11)] :
          List (Line × ℚ)), m.2 ≤ x.2)) ∧
    rank_configs_family [("a".data, (-10 : ℚ)), ("b".data, -12), ("c".data, -11)] =
      [("b".data, -12, 1, 0), ("c".data, -11, 2, 1), ("a".data, -10, 3, 2)] := by
  refine ⟨by simp, C7_ranking _ (by simp), ?_⟩
  have hsort : List.insertionSort energyLE
      [("a".data, (-10 : ℚ)), ("b".data, -12), ("c".data, -11)] =
      [("b".data, -12), ("c".data, -11), ("a".data, -10)] := by
    norm_num [List.insertionSort, List.orderedInsert, energyLE]
  unfold rank_configs_family
  rw [hsort]
  norm_num [List.enum, List.enumFrom]

/-- C10: when the run-type keyword is outside the builder's lookup table and
no explicit filename was given, both builders fall back to the base name
`file`, producing `file.inp` and `file.job`. -/
theorem C10_default_basename (runtyp nom : Line)
    (hg : runtyp ∉ ["optimize".data, "energy".data, "hessian".data])
    (hp1 : nom ∉ ["optimize".data, "energy".data, "frequency".data])
    (hp2 : nom ≠ "additional".data) :
    gamess_file_basename none runtyp = "file".data ∧
    written_filename (gamess_file_basename none runtyp) "inp".data =
      "file.inp".data ∧
    written_filename (gamess_file_basename none runtyp) "job".data =
      "file.job".data ∧
    psi_file_basename none [nom] = some "file".data ∧
    (psi_file_basename none [nom]).map
      (fun b => written_filename b "inp".data) = some "file.inp".data ∧
    (psi_file_basename none [nom]).map
      (fun b => written_filename b "job".data) = some "file.job".data := by
  have hg1 : ¬(runtyp = "optimize".data) := fun hh => hg (by simp [hh])
  have hg2 : ¬(runtyp = "energy".data) := fun hh => hg (by simp [hh])
  have hg3 : ¬(runtyp = "hessian".data) := fun hh => hg (by simp [hh])
  have hq1 : ¬(nom = "optimize".data) := fun hh => hp1 (by simp [hh])
  have hq2 : ¬(nom = "energy".data) := fun hh => hp1 (by simp [hh])
  have hq3 : ¬(nom = "frequency".data) := fun hh => hp1 (by simp [hh])
  have hgam : gamess_file_basename none runtyp = "file".data := by
    simp [gamess_file_basename, pyGet, hg1, hg2, hg3]
  have hpsi : psi_file_basename none [nom] = some "file".data := by
    simp [psi_file_basename, psi_nom, pyGet, hp2, hq1, hq2, hq3]
  refine ⟨hgam, ?_, ?_, hpsi, ?_, ?_⟩
  · rw [hgam]; decide
  · rw [hgam]; decide
  · rw [hpsi]
    show some (written_filename "file".data "inp".data) = some "file.inp".data
    decide
  · rw [hpsi]
    show some (written_filename "file".data "job".data) = some "file.job".data
    decide

/-- C10 witness: run type `irc` is unknown to both lookup tables. -/
theorem C10_witness :
    ("irc".data ∉ ["optimize".data, "energy".data, "hessian".data]) ∧
    ("irc".data ∉ ["optimize".data, "energy".data, "frequency".data]) ∧
    ("irc".data ≠ "additional".data) ∧
    (gamess_file_basename none "irc".data = "file".data ∧
      written_filename (gamess_file_basename none "irc".data) "inp".data =
        "file.inp".data ∧
      written_filename (gamess_file_basename none "irc".data) "job".data =
        "file.job".data ∧
      psi_file_basename none ["irc".data] = some "file".data ∧
      (psi_file_basename none ["irc".data]).map
        (fun b => written_filename b "inp".data) = some "file.inp".data ∧
      (psi_file_basename none ["irc".data]).map
        (fun b => written_filename b "job".data) = some "file.job".data) :=
  ⟨by decide, by decide, by decide,
    C10_default_basename _ _ (by decide) (by decide) (by decide)⟩

/-- With pairwise-distinct section names, any name matches at most one
line. -/
theorem nodup_countP_name (u : List Line)
    (hnd : (u.map sectionName).Nodup) (x : Line) :
    u.countP (fun l => sectionName l = x) ≤ 1 := by
  induction u with
  | nil => simp [List.countP_nil]
  | cons l u ih =>
    rw [List.map_cons, List.nodup_cons] at hnd
    rw [List.countP_cons]
    by_cases hx : sectionName l = x
    · have hz : u.countP (fun l => sectionName l = x) = 0 := by
        rw [List.countP_eq_zero]
        intro a ha
        simp only [decide_eq_true_eq]
        intro hax
        exact hnd.1 (hx ▸ hax ▸ List.mem_map_of_mem sectionName ha)
      simp [hz, hx]
    · simp [hx, ih hnd.2]

/-- Lines kept by a section-name filter all carry that name. -/
theorem map_name_filter (u : List Line) (i : Line) :
    (u.filter (fun l => sectionName l = i)).map sectionName =
      List.replicate (u.countP (fun l => sectionName l = i)) i := by
  induction u with
  | nil => rfl
  | cons l u ih =>
    by_cases h : sectionName l = i
    · simp [List.filter_cons, List.countP_cons, h, ih, List.replicate_succ]
    · simp [List.filter_cons, List.countP_cons, h, ih]

/-- Counting a section name across the canonical pass: each canonical slot
contributes every matching input line once. -/
theorem countP_canonicalPass_aux (u : List Line) (x : Line) :
    ∀ d : List Line,
      (d.flatMap (fun i => u.filter (fun l => sectionName l = i))).countP
        (fun l => sectionName l = x) =
      (d.countP (fun i => i = x)) * u.countP (fun l => sectionName l = x) := by
  intro d
  induction d with
  | nil => simp
  | cons i d ih =>
    rw [List.flatMap_cons, List.countP_append, ih, List.countP_cons]
    by_cases hix : i = x
    · subst hix
      have : (u.filter (fun l => sectionName l = i)).countP
          (fun l => sectionName l = i) =
          u.countP (fun l => sectionName l = i) := by
        rw [List.countP_filter]
        refine List.countP_congr ?_
        intro a _
        by_cases h : sectionName a = i <;> simp [h]
      rw [this]
      simp [Nat.add_mul]
      omega
    · have : (u.filter (fun l => sectionName l = i)).countP
          (fun l => sectionName l = x) = 0 := by
        rw [List.countP_eq_zero]
        intro a ha
        rw [List.mem_filter] at ha
        simp only [decide_eq_true_eq]
        intro hax
        exact hix ((of_decide_eq_true ha.2) ▸ hax)
      rw [this]
      simp [hix]

/-- Inserting a line anywhere changes a count by that line's contribution. -/
theorem countP_pyInsert (k : ℕ) (h : List Line) (x : Line) (P : Line → Bool) :
    (pyInsertFromEnd k h x).countP P =
      h.countP P + if P x then 1 else 0 := by
  unfold pyInsertFromEnd
  rw [List.countP_append, List.countP_cons, ← Nat.add_assoc,
    ← List.countP_append, List.take_append_drop]

/-- Membership in a Python `insert` result. -/
theorem mem_pyInsert (k : ℕ) (h : List Line) (x a : Line) :
    a ∈ pyInsertFromEnd k h x ↔ a ∈ h ∨ a = x := by
  unfold pyInsertFromEnd
  constructor
  · intro ha
    rcases List.mem_append.mp ha with h1 | h1
    · exact Or.inl (List.mem_of_mem_take h1)
    · rcases List.mem_cons.mp h1 with h2 | h2
      · exact Or.inr h2
      · exact Or.inl (List.mem_of_mem_drop h2)
  · intro ha
    rcases ha with h1 | h1
    · rw [← List.take_append_drop (h.length - k) h] at h1
      rcases List.mem_append.mp h1 with h2 | h2
      · exact List.mem_append.mpr (Or.inl h2)
      · exact List.mem_append.mpr (Or.inr (List.mem_cons_of_mem x h2))
    · subst h1
      exact List.mem_append.mpr (Or.inr (List.mem_cons_self a _))

/-- `canonNames` distributes over append. -/
theorem canonNames_append (fmo : Bool) (l1 l2 : List Line) :
    canonNames fmo (l1 ++ l2) = canonNames fmo l1 ++ canonNames fmo l2 := by
  simp [canonNames, List.filter_append]

/-- Inserting a non-canonical line leaves the canonical name sequence
unchanged. -/
theorem canonNames_pyInsert (fmo : Bool) (k : ℕ) (h : List Line) (x : Line)
    (hx : sectionName x ∉ desired fmo) :
    canonNames fmo (pyInsertFromEnd k h x) = canonNames fmo h := by
  unfold pyInsertFromEnd
  rw [canonNames_append]
  have hcons : canonNames fmo (x :: h.drop (h.length - k)) =
      canonNames fmo (h.drop (h.length - k)) := by
    simp [canonNames, hx]
  rw [hcons, ← canonNames_append, List.take_append_drop]

/-- Unfolding one step of the insertion pass. -/
theorem insertionPass_cons (fmo : Bool) (l : Line) (u : List Line)
    (hdr : List Line) :
    insertionPass fmo (l :: u) hdr = insertionPass fmo u
      (if sectionName l ∉ desired fmo ∧ sectionName l ≠ "FMO".data ∧
          sectionName l ≠ "GDDI".data
       then pyInsertFromEnd (if fmo then 5 else 4) hdr l else hdr) := rfl

/-- The insertion pass leaves the canonical name sequence unchanged. -/
theorem canonNames_insertionPass (fmo : Bool) (u : List Line) :
    ∀ hdr, canonNames fmo (insertionPass fmo u hdr) = canonNames fmo hdr := by
  induction u with
  | nil => intro hdr; rfl
  | cons l u ih =>
    intro hdr
    rw [insertionPass_cons]
    by_cases hc : sectionName l ∉ desired fmo ∧ sectionName l ≠ "FMO".data ∧
        sectionName l ≠ "GDDI".data
    · rw [if_pos hc, ih, canonNames_pyInsert fmo _ hdr l hc.1]
    · rw [if_neg hc, ih]

/-- The insertion pass never adds a canonically-named line, in particular no
`STATPT` line. -/
theorem countP_insertionPass (fmo : Bool) (u : List Line)
    (hstat : "STATPT".data ∈ desired fmo) :
    ∀ hdr, (insertionPass fmo u hdr).countP
        (fun l => sectionName l = "STATPT".data) =
      hdr.countP (fun l => sectionName l = "STATPT".data) := by
  induction u with
  | nil => intro hdr; rfl
  | cons l u ih =>
    intro hdr
    rw [insertionPass_cons]
    by_cases hc : sectionName l ∉ desired fmo ∧ sectionName l ≠ "FMO".data ∧
        sectionName l ≠ "GDDI".data
    · rw [if_pos hc, ih, countP_pyInsert]
      have : ¬(sectionName l = "STATPT".data) := fun hs => hc.1 (hs ▸ hstat)
      simp [this]
    · rw [if_neg hc, ih]

/-- A line of the input whose section is canonical appears in the canonical
pass. -/
theorem mem_canonicalPass_of (fmo : Bool) (u : List Line) (l : Line)
    (hl : l ∈ u) (hname : sectionName l ∈ desired fmo) :
    l ∈ canonicalPass fmo u := by
  unfold canonicalPass
  refine List.mem_flatMap.mpr ⟨sectionName l, hname, ?_⟩
  rw [List.mem_filter]
  exact ⟨hl, by simp⟩

/-- Every line of the canonical pass comes from the input. -/
theorem canonicalPass_subset (fmo : Bool) (u : List Line) (l : Line)
    (h : l ∈ canonicalPass fmo u) : l ∈ u := by
  obtain ⟨i, _, hf⟩ := List.mem_flatMap.mp h
  exact (List.mem_filter.mp hf).1

/-- The insertion pass keeps every line already present. -/
theorem mem_insertionPass_of_mem (fmo : Bool) (u : List Line) (l : Line) :
    ∀ hdr, l ∈ hdr → l ∈ insertionPass fmo u hdr := by
  induction u with
  | nil => intro hdr h; exact h
  | cons a u ih =>
    intro hdr h
    rw [insertionPass_cons]
    by_cases hc : sectionName a ∉ desired fmo ∧ sectionName a ≠ "FMO".data ∧
        sectionName a ≠ "GDDI".data
    · rw [if_pos hc]
      exact ih _ ((mem_pyInsert _ _ _ _).mpr (Or.inl h))
    · rw [if_neg hc]
      exact ih _ h

/-- A non-canonical, non-`FMO`, non-`GDDI` input line is inserted by the
insertion pass. -/
theorem mem_insertionPass_of_cond (fmo : Bool) (u : List Line) (l : Line)
    (hl : l ∈ u)
    (hc : sectionName l ∉ desired fmo ∧ sectionName l ≠ "FMO".data ∧
      sectionName l ≠ "GDDI".data) :
    ∀ hdr, l ∈ insertionPass fmo u hdr := by
  induction u with
  | nil => cases hl
  | cons a u ih =>
    intro hdr
    rw [insertionPass_cons]
    rcases List.mem_cons.mp hl with h1 | h1
    · subst h1
      rw [if_pos hc]
      exact mem_insertionPass_of_mem fmo u l _
        ((mem_pyInsert _ _ _ _).mpr (Or.inr rfl))
    · exact ih h1 _

/-- Every line after the insertion pass was already present or came from the
input. -/
theorem insertionPass_subset (fmo : Bool) (u : List Line) :
    ∀ hdr l, l ∈ insertionPass fmo u hdr → l ∈ hdr ∨ l ∈ u := by
  induction u with
  | nil => intro hdr l h; exact Or.inl h
  | cons a u ih =>
    intro hdr l h
    rw [insertionPass_cons] at h
    by_cases hc : sectionName a ∉ desired fmo ∧ sectionName a ≠ "FMO".data ∧
        sectionName a ≠ "GDDI".data
    · rw [if_pos hc] at h
      rcases ih _ l h with h1 | h1
      · rcases (mem_pyInsert _ _ _ _).mp h1 with h2 | h2
        · exact Or.inl h2
        · exact Or.inr (h2 ▸ List.mem_cons_self a u)
      · exact Or.inr (List.mem_cons_of_mem a h1)
    · rw [if_neg hc] at h
      rcases ih _ l h with h1 | h1
      · exact Or.inl h1
      · exact Or.inr (List.mem_cons_of_mem a h1)

/-- Unfolding one step of the deletion scan. -/
theorem pyDelStatpt_cons (l : Line) (rest : List Line) :
    pyDelStatpt (l :: rest) =
      if firstToken l = "$STATPT".data then
        (match rest with | [] => [] | r :: rs => r :: pyDelStatpt rs)
      else l :: pyDelStatpt rest := by
  cases rest <;> simp [pyDelStatpt]

/-- A list with no `$STATPT` line passes the deletion scan unchanged. -/
theorem pyDelStatpt_of_countP_zero :
    ∀ hdr : List Line,
      hdr.countP (fun l => firstToken l = "$STATPT".data) = 0 →
      pyDelStatpt hdr = hdr := by
  intro hdr
  induction hdr with
  | nil => intro _; rfl
  | cons l rest ih =>
    intro h
    rw [List.countP_cons] at h
    have hP : ¬(firstToken l = "$STATPT".data) := by
      intro hl
      simp [hl] at h
    have hrest : rest.countP (fun l => firstToken l = "$STATPT".data) = 0 := by
      omega
    rw [pyDelStatpt_cons, if_neg hP, ih hrest]

/-- With at most one `$STATPT` line, the enumerate-and-delete loop removes
exactly the lines whose first token is `$STATPT`. -/
theorem pyDelStatpt_eq_filter :
    ∀ hdr : List Line,
      hdr.countP (fun l => firstToken l = "$STATPT".data) ≤ 1 →
      pyDelStatpt hdr =
        hdr.filter (fun l => firstToken l ≠ "$STATPT".data) := by
  intro hdr
  induction hdr with
  | nil => intro _; rfl
  | cons l rest ih =>
    intro h
    rw [List.countP_cons] at h
    rw [pyDelStatpt_cons]
    by_cases hP : firstToken l = "$STATPT".data
    · rw [if_pos hP, List.filter_cons_of_neg (by simp [hP])]
      have hrest : rest.countP (fun l => firstToken l = "$STATPT".data) = 0 := by
        rw [if_pos (by simpa using hP)] at h
        omega
      have hfilter : rest.filter (fun l => firstToken l ≠ "$STATPT".data) = rest := by
        rw [List.filter_eq_self]
        intro a ha
        rw [List.countP_eq_zero] at hrest
        simpa using hrest a ha
      rw [hfilter]
      cases rest with
      | nil => rfl
      | cons r rs =>
        have hrs : rs.countP (fun l => firstToken l = "$STATPT".data) = 0 := by
          rw [List.countP_cons] at hrest
          omega
        show r :: pyDelStatpt rs = r :: rs
        rw [pyDelStatpt_of_countP_zero rs hrs]
    · have h2 : rest.countP (fun l => firstToken l = "$STATPT".data) ≤ 1 := by
        rw [if_neg (by simp [hP])] at h
        simpa using h
      rw [if_neg hP, List.filter_cons_of_pos (by simpa using hP), ih h2]

/-- Counting with pointwise-equal predicates gives equal counts. -/
theorem countP_congr_lines {p q : Line → Bool} :
    ∀ l : List Line, (∀ a ∈ l, p a = q a) → l.countP p = l.countP q := by
  intro l
  induction l with
  | nil => intro _; rfl
  | cons a t ih =>
    intro h
    rw [List.countP_cons, List.countP_cons,
      ih (fun b hb => h b (List.mem_cons_of_mem a hb)),
      h a (List.mem_cons_self a t)]

/-- The canonical names of the canonical pass are exactly the canonical
sections present in the input, in canonical order. -/
theorem canonNames_flatMapFilter (fmo : Bool) (u : List Line)
    (hnd : (u.map sectionName).Nodup) :
    ∀ d : List Line, (∀ i ∈ d, i ∈ desired fmo) →
      canonNames fmo
        (d.flatMap (fun i => u.filter (fun l => sectionName l = i))) =
      d.filter (fun i => u.any (fun l => sectionName l = i)) := by
  intro d
  induction d with
  | nil => intro _; rfl
  | cons i d ih =>
    intro hd
    rw [List.flatMap_cons, canonNames_append,
      ih (fun j hj => hd j (List.mem_cons_of_mem i hj))]
    have hin : i ∈ desired fmo := hd i (List.mem_cons_self i d)
    have h1 : canonNames fmo (u.filter (fun l => sectionName l = i)) =
        List.replicate (u.countP (fun l => sectionName l = i)) i := by
      unfold canonNames
      rw [map_name_filter]
      exact List.filter_eq_self.mpr (fun a ha => by
        rw [List.eq_of_mem_replicate ha]
        simpa using hin)
    rw [h1]
    by_cases hany : u.any (fun l => sectionName l = i)
    · have hpos : 0 < u.countP (fun l => sectionName l = i) := by
        rw [List.countP_pos]
        obtain ⟨a, ha, hpa⟩ := List.any_eq_true.mp hany
        exact ⟨a, ha, hpa⟩
      have hle := nodup_countP_name u hnd i
      have hone : u.countP (fun l => sectionName l = i) = 1 := by omega
      rw [hone, List.filter_cons_of_pos (by simpa using hany)]
      rfl
    · have hzero : u.countP (fun l => sectionName l = i) = 0 := by
        rw [List.countP_eq_zero]
        intro a ha hpa
        exact hany (List.any_eq_true.mpr ⟨a, ha, hpa⟩)
      rw [hzero, List.filter_cons_of_neg (by simpa using hany)]
      rfl

/-- Removing the lines of one section name removes exactly that name from
the canonical name sequence. -/
theorem map_name_filter_ne (x : Line) :
    ∀ lines : List Line,
      (lines.filter (fun l => sectionName l ≠ x)).map sectionName =
        (lines.map sectionName).filter (fun n => n ≠ x) := by
  intro lines
  induction lines with
  | nil => rfl
  | cons l t ih =>
    by_cases h : sectionName l = x
    · rw [List.filter_cons_of_neg (by simpa using h), List.map_cons,
        List.filter_cons_of_neg (by simpa using h), ih]
    · rw [List.filter_cons_of_pos (by simpa using h), List.map_cons,
        List.map_cons, List.filter_cons_of_pos (by simpa using h), ih]

theorem canonNames_filter_name (fmo : Bool) (x : Line) (lines : List Line) :
    canonNames fmo (lines.filter (fun l => sectionName l ≠ x)) =
      (canonNames fmo lines).filter (fun n => n ≠ x) := by
  unfold canonNames
  rw [map_name_filter_ne x lines, List.filter_filter, List.filter_filter]
  exact List.filter_congr (fun a _ => by rw [Bool.and_comm])

/-- Unfolding one step of the log scan. -/
theorem scanLogAux_cons (l : Line) (ls : List Line) (found0 find0 : Bool)
    (eq rr : List Line) :
    scanLogAux (l :: ls) found0 find0 eq rr =
      scanLogAux ls
        (if l = "\n".data then false
         else if pyIn "EQUILIBRIUM GEOMETRY LOCATED".data l then true else found0)
        (if l = "\n".data then false
         else if pyIn "ALWAYS THE LAST POINT COMPUTED".data l then true
           else find0)
        (if (if pyIn "EQUILIBRIUM GEOMETRY LOCATED".data l then true
            else found0) && geomSearch l
         then eq ++ [stripNl l] else eq)
        (if (if pyIn "ALWAYS THE LAST POINT COMPUTED".data l then true
            else find0) && geomSearch l
         then rr ++ [stripNl l] else rr) := rfl

/-- Without the equilibrium marker anywhere in the log, the `found` flag
never rises and no equilibrium line is collected. -/
theorem scanLogAux_equil_of_no_marker :
    ∀ (lines : List Line) (find : Bool) (eq rr : List Line),
      (∀ l ∈ lines, pyIn "EQUILIBRIUM GEOMETRY LOCATED".data l = false) →
      (scanLogAux lines false find eq rr).equil = eq := by
  intro lines
  induction lines with
  | nil => intro find eq rr _; rfl
  | cons l ls ih =>
    intro find eq rr h
    have hl : pyIn "EQUILIBRIUM GEOMETRY LOCATED".data l = false :=
      h l (List.mem_cons_self l ls)
    rw [scanLogAux_cons]
    simp only [hl, Bool.false_eq_true, if_false, ite_self, Bool.false_and]
    exact ih _ _ _ (fun x hx => h x (List.mem_cons_of_mem l hx))

/-- Without the normal-termination marker, `completed` stays false. -/
theorem completed_false_of_no_marker (lines : List Line)
    (h : ∀ l ∈ lines,
      pyIn "EXECUTION OF GAMESS TERMINATED NORMALLY".data l = false) :
    completed lines = false := by
  unfold completed
  induction lines with
  | nil => rfl
  | cons l ls ih =>
    rw [List.foldl_cons, h l (List.mem_cons_self l ls)]
    exact ih (fun x hx => h x (List.mem_cons_of_mem l hx))

/-- C3: on a log with no normal-termination marker, no equilibrium marker,
but at least one collected last-point geometry block, the recovery creates
`rerun/`, writes the extracted coordinates to `rerun/rerun.xyz`, writes
`rerun/rerun.inp` as every original input line strictly before the first
geometry-pattern line followed by the new coordinates and the `' $END'`
terminator, and, when a job script exists, writes `rerun/rerun.job` with
the input and log filename references rewritten to the rerun names. -/
theorem C3_rerun_recovery (logName : Line) (logLines inpLines : List Line)
    (jobText : Option Line)
    (hterm : ∀ l ∈ logLines,
      pyIn "EXECUTION OF GAMESS TERMINATED NORMALLY".data l = false)
    (hequil : ∀ l ∈ logLines,
      pyIn "EQUILIBRIUM GEOMETRY LOCATED".data l = false)
    (hrerun : (scanLog logLines).rerun ≠ []) :
    get_equil_coords logName logLines inpLines jobText =
      ⟨none, true, some (scanLog logLines).rerun,
        some (inpLines.takeWhile (fun l => !(geomSearch l)) ++
          (scanLog logLines).rerun.map (fun l => l ++ "\n".data) ++
          [" $END".data]),
        jobText.map (fun j =>
          replaceAll logName
            ("rerun.".data ++ logName.drop (logName.length - 3))
            (replaceAll (logName.take (logName.length - 3) ++ "inp".data)
              "rerun.inp".data j))⟩ ∧
    (inpLines.takeWhile (fun l => !(geomSearch l)) ++
        (scanLog logLines).rerun.map (fun l => l ++ "\n".data) ++
        [" $END".data]).getLast? = some " $END".data ∧
    completed logLines = false := by
  have hEq : (scanLog logLines).equil = [] :=
    scanLogAux_equil_of_no_marker logLines false [] [] hequil
  refine ⟨?_, List.getLast?_concat _, completed_false_of_no_marker logLines hterm⟩
  unfold get_equil_coords
  rw [if_neg (by rw [hEq]; simp), if_pos (List.length_pos.mpr hrerun)]

/-- C3 witness: scenario C of the spec — a truncated optimisation log with
one last-point geometry block, an input deck whose first coordinate line is
its fifth line, and a job script referencing `spec.inp`/`spec.log`. -/
theorem C3_witness :
    (∀ l ∈ [" ALWAYS THE LAST POINT COMPUTED\n".data,
        " C 6.0 1.0 2.0 3.0\n".data, "\n".data],
      pyIn "EXECUTION OF GAMESS TERMINATED NORMALLY".data l = false) ∧
    (∀ l ∈ [" ALWAYS THE LAST POINT COMPUTED\n".data,
        " C 6.0 1.0 2.0 3.0\n".data, "\n".data],
      pyIn "EQUILIBRIUM GEOMETRY LOCATED".data l = false) ∧
    (scanLog [" ALWAYS THE LAST POINT COMPUTED\n".data,
        " C 6.0 1.0 2.0 3.0\n".data, "\n".data]).rerun ≠ [] ∧
    (get_equil_coords "spec.log".data
        [" ALWAYS THE LAST POINT COMPUTED\n".data,
         " C 6.0 1.0 2.0 3.0\n".data, "\n".data]
        [" $CONTRL RUNTYP=OPTIMIZE $END\n".data, " $DATA\n".data,
         "title\n".data, "C1\n".data, " C 6.0 0.1 0.2 0.3\n".data,
         " $END".data]
        (some "run spec.inp routine spec.log end".data) =
      ⟨none, true,
        some (scanLog [" ALWAYS THE LAST POINT COMPUTED\n".data,
          " C 6.0 1.0 2.0 3.0\n".data, "\n".data]).rerun,
        some (([" $CONTRL RUNTYP=OPTIMIZE $END\n".data, " $DATA\n".data,
            "title\n".data, "C1\n".data, " C 6.0 0.1 0.2 0.3\n".data,
            " $END".data].takeWhile (fun l => !(geomSearch l))) ++
          (scanLog [" ALWAYS THE LAST POINT COMPUTED\n".data,
            " C 6.0 1.0 2.0 3.0\n".data, "\n".data]).rerun.map
            (fun l => l ++ "\n".data) ++
          [" $END".data]),
        (some "run spec.inp routine spec.log end".data).map (fun j =>
          replaceAll "spec.log".data
            ("rerun.".data ++ ("spec.log".data).drop
              (("spec.log".data).length - 3))
            (replaceAll (("spec.log".data).take
                (("spec.log".data).length - 3) ++ "inp".data)
              "rerun.inp".data j))⟩ ∧
      (([" $CONTRL RUNTYP=OPTIMIZE $END\n".data, " $DATA\n".data,
          "title\n".data, "C1\n".data, " C 6.0 0.1 0.2 0.3\n".data,
          " $END".data].takeWhile (fun l => !(geomSearch l))) ++
        (scanLog [" ALWAYS THE LAST POINT COMPUTED\n".data,
          " C 6.0 1.0 2.0 3.0\n".data, "\n".data]).rerun.map
          (fun l => l ++ "\n".data) ++
        [" $END".data]).getLast? = some " $END".data ∧
      completed [" ALWAYS THE LAST POINT COMPUTED\n".data,
        " C 6.0 1.0 2.0 3.0\n".data, "\n".data] = false) ∧
    get_equil_coords "spec.log".data
        [" ALWAYS THE LAST POINT COMPUTED\n".data,
         " C 6.0 1.0 2.0 3.0\n".data, "\n".data]
        [" $CONTRL RUNTYP=OPTIMIZE $END\n".data, " $DATA\n".data,
         "title\n".data, "C1\n".data, " C 6.0 0.1 0.2 0.3\n".data,
         " $END".data]
        (some "run spec.inp routine spec.log end".data) =
      ⟨none, true, some [" C 6.0 1.0 2.0 3.0".data],
        some [" $CONTRL RUNTYP=OPTIMIZE $END\n".data, " $DATA\n".data,
          "title\n".data, "C1\n".data, " C 6.0 1.0 2.0 3.0\n".data,
          " $END".data],
        some "run rerun.inp routine rerun.log end".data⟩ :=
  ⟨by decide, by decide, by decide,
    C3_rerun_recovery _ _ _ _ (by decide) (by decide) (by decide),
    by decide⟩

/-- C4: for a settings header whose section names are distinct (they are
dict keys) and whose lines start with `$<NAME>`, the ordered header's
canonical sections appear exactly in the canonical order of the active
mode, restricted to the sections present (minus `STATPT` for
non-optimisations); a `$STATPT` section is present in the result iff the
run type is `optimize` and the input had one; and every non-canonical,
non-`FMO`/`GDDI` section survives (it is spliced in rather than dropped). -/
theorem C4_header_order (fmo : Bool) (runtyp : Line) (unordered : List Line)
    (hnodup : (unordered.map sectionName).Nodup)
    (hdollar : ∀ l ∈ unordered, firstToken l = '$' :: sectionName l) :
    canonNames fmo (order_header fmo runtyp unordered) =
      (if runtyp = "optimize".data then
        (desired fmo).filter (fun i => unordered.any (fun l => sectionName l = i))
      else
        ((desired fmo).filter
          (fun i => unordered.any (fun l => sectionName l = i))).filter
          (fun i => i ≠ "STATPT".data)) ∧
    ((∃ l ∈ order_header fmo runtyp unordered,
        sectionName l = "STATPT".data) ↔
      (runtyp = "optimize".data ∧
        ∃ l ∈ unordered, sectionName l = "STATPT".data)) ∧
    (∀ l ∈ unordered, sectionName l ∉ desired fmo →
      sectionName l ≠ "FMO".data → sectionName l ≠ "GDDI".data →
      l ∈ order_header fmo runtyp unordered) := by
  have hstat : "STATPT".data ∈ desired fmo := by cases fmo <;> decide
  have hmem2 : ∀ l ∈ insertionPass fmo unordered (canonicalPass fmo unordered),
      l ∈ unordered := by
    intro l hl
    rcases insertionPass_subset fmo unordered _ l hl with h | h
    · exact canonicalPass_subset fmo unordered l h
    · exact h
  have hdollar2 :
      ∀ l ∈ insertionPass fmo unordered (canonicalPass fmo unordered),
        firstToken l = '$' :: sectionName l :=
    fun l hl => hdollar l (hmem2 l hl)
  have hptw : ∀ l ∈ insertionPass fmo unordered (canonicalPass fmo unordered),
      (decide (firstToken l = "$STATPT".data)) =
        (decide (sectionName l = "STATPT".data)) := by
    intro l hl
    rw [hdollar2 l hl]
    by_cases h : sectionName l = "STATPT".data <;> simp [h]
  have hcnt_name :
      (insertionPass fmo unordered (canonicalPass fmo unordered)).countP
        (fun l => sectionName l = "STATPT".data) ≤ 1 := by
    rw [countP_insertionPass fmo unordered hstat]
    unfold canonicalPass
    rw [countP_canonicalPass_aux]
    have hdc : (desired fmo).countP (fun i => i = "STATPT".data) = 1 := by
      cases fmo <;> decide
    rw [hdc, Nat.one_mul]
    exact nodup_countP_name unordered hnodup _
  have hcnt_tok :
      (insertionPass fmo unordered (canonicalPass fmo unordered)).countP
        (fun l => firstToken l = "$STATPT".data) ≤ 1 := by
    rw [countP_congr_lines _ hptw]
    exact hcnt_name
  have hcanon2 :
      canonNames fmo (insertionPass fmo unordered (canonicalPass fmo unordered)) =
        (desired fmo).filter
          (fun i => unordered.any (fun l => sectionName l = i)) := by
    rw [canonNames_insertionPass]
    exact canonNames_flatMapFilter fmo unordered hnodup (desired fmo)
      (fun i hi => hi)
  have horder_opt : runtyp = "optimize".data →
      order_header fmo runtyp unordered =
        insertionPass fmo unordered (canonicalPass fmo unordered) := by
    intro h
    unfold order_header
    rw [if_neg (by simp [h])]
  have horder_non : runtyp ≠ "optimize".data →
      order_header fmo runtyp unordered =
        (insertionPass fmo unordered (canonicalPass fmo unordered)).filter
          (fun l => sectionName l ≠ "STATPT".data) := by
    intro h
    unfold order_header
    rw [if_pos h, pyDelStatpt_eq_filter _ hcnt_tok]
    refine List.filter_congr ?_
    intro a ha
    have := hptw a ha
    by_cases hx : sectionName a = "STATPT".data <;> simp [hx] at this ⊢ <;>
      simp [this]
  refine ⟨?_, ?_, ?_⟩
  · by_cases hrt : runtyp = "optimize".data
    · rw [horder_opt hrt, hcanon2, if_pos hrt]
    · rw [horder_non hrt, canonNames_filter_name, hcanon2, if_neg hrt]
  · by_cases hrt : runtyp = "optimize".data
    · rw [horder_opt hrt]
      constructor
      · rintro ⟨l, hl, hname⟩
        exact ⟨hrt, l, hmem2 l hl, hname⟩
      · rintro ⟨-, l, hl, hname⟩
        exact ⟨l, mem_insertionPass_of_mem fmo unordered l _
          (mem_canonicalPass_of fmo unordered l hl (hname ▸ hstat)), hname⟩
    · rw [horder_non hrt]
      constructor
      · rintro ⟨l, hl, hname⟩
        rw [List.mem_filter] at hl
        exact absurd hname (by simpa using hl.2)
      · rintro ⟨h1, -⟩
        exact absurd h1 hrt
  · intro l hl h1 h2 h3
    have hmem : l ∈ insertionPass fmo unordered (canonicalPass fmo unordered) :=
      mem_insertionPass_of_cond fmo unordered l hl ⟨h1, h2, h3⟩ _
    by_cases hrt : runtyp = "optimize".data
    · rw [horder_opt hrt]
      exact hmem
    · rw [horder_non hrt, List.mem_filter]
      refine ⟨hmem, ?_⟩
      have hne : sectionName l ≠ "STATPT".data := fun hs => h1 (hs ▸ hstat)
      simpa using hne

/-- C4 witness: a non-FMO single-point (`runtyp=energy`) header with a
non-canonical `$ZMAT` section — the canonical sections keep canonical
order, `$STATPT` is deleted, `$ZMAT` survives. -/
theorem C4_witness :
    (([" $SYSTEM MWORDS=500 $END\n".data, " $CONTRL RUNTYP=ENERGY $END\n".data,
       " $STATPT NSTEP=500 $END\n".data, " $BASIS GBASIS=CCT $END\n".data,
       " $ZMAT DLC=.TRUE. $END\n".data].map sectionName).Nodup) ∧
    (∀ l ∈ [" $SYSTEM MWORDS=500 $END\n".data,
       " $CONTRL RUNTYP=ENERGY $END\n".data, " $STATPT NSTEP=500 $END\n".data,
       " $BASIS GBASIS=CCT $END\n".data, " $ZMAT DLC=.TRUE. $END\n".data],
      firstToken l = '$' :: sectionName l) ∧
    (canonNames false (order_header false "energy".data
        [" $SYSTEM MWORDS=500 $END\n".data, " $CONTRL RUNTYP=ENERGY $END\n".data,
         " $STATPT NSTEP=500 $END\n".data, " $BASIS GBASIS=CCT $END\n".data,
         " $ZMAT DLC=.TRUE. $END\n".data]) =
      (if "energy".data = "optimize".data then
        (desired false).filter (fun i =>
          [" $SYSTEM MWORDS=500 $END\n".data, " $CONTRL RUNTYP=ENERGY $END\n".data,
           " $STATPT NSTEP=500 $END\n".data, " $BASIS GBASIS=CCT $END\n".data,
           " $ZMAT DLC=.TRUE. $END\n".data].any (fun l => sectionName l = i))
      else
        ((desired false).filter (fun i =>
          [" $SYSTEM MWORDS=500 $END\n".data, " $CONTRL RUNTYP=ENERGY $END\n".data,
           " $STATPT NSTEP=500 $END\n".data, " $BASIS GBASIS=CCT $END\n".data,
           " $ZMAT DLC=.TRUE. $END\n".data].any (fun l => sectionName l = i))).filter
          (fun i => i ≠ "STATPT".data)) ∧
      ((∃ l ∈ order_header false "energy".data
          [" $SYSTEM MWORDS=500 $END\n".data, " $CONTRL RUNTYP=ENERGY $END\n".data,
           " $STATPT NSTEP=500 $END\n".data, " $BASIS GBASIS=CCT $END\n".data,
           " $ZMAT DLC=.TRUE. $END\n".data],
          sectionName l = "STATPT".data) ↔
        ("energy".data = "optimize".data ∧
          ∃ l ∈ [" $SYSTEM MWORDS=500 $END\n".data,
            " $CONTRL RUNTYP=ENERGY $END\n".data, " $STATPT NSTEP=500 $END\n".data,
            " $BASIS GBASIS=CCT $END\n".data, " $ZMAT DLC=.TRUE. $END\n".data],
            sectionName l = "STATPT".data)) ∧
      (∀ l ∈ [" $SYSTEM MWORDS=500 $END\n".data,
          " $CONTRL RUNTYP=ENERGY $END\n".data, " $STATPT NSTEP=500 $END\n".data,
          " $BASIS GBASIS=CCT $END\n".data, " $ZMAT DLC=.TRUE. $END\n".data],
        sectionName l ∉ desired false → sectionName l ≠ "FMO".data →
        sectionName l ≠ "GDDI".data →
        l ∈ order_header false "energy".data
          [" $SYSTEM MWORDS=500 $END\n".data, " $CONTRL RUNTYP=ENERGY $END\n".data,
           " $STATPT NSTEP=500 $END\n".data, " $BASIS GBASIS=CCT $END\n".data,
           " $ZMAT DLC=.TRUE. $END\n".data])) ∧
    order_header false "energy".data
        [" $SYSTEM MWORDS=500 $END\n".data, " $CONTRL RUNTYP=ENERGY $END\n".data,
         " $STATPT NSTEP=500 $END\n".data, " $BASIS GBASIS=CCT $END\n".data,
         " $ZMAT DLC=.TRUE. $END\n".data] =
      [" $ZMAT DLC=.TRUE. $END\n".data, " $SYSTEM MWORDS=500 $END\n".data,
       " $CONTRL RUNTYP=ENERGY $END\n".data, " $BASIS GBASIS=CCT $END\n".data] :=
  ⟨by decide, by decide, C4_header_order false _ _ (by decide) (by decide),
    by decide⟩

/-- The counters handed out for `additional` entries are ascending and
bounded below by the starting counter. -/
theorem addlCounters_sorted_ge (kvs : List (Line × Line)) :
    ∀ c : ℕ, List.Sorted countLE (addlCounters c kvs) ∧
      ∀ x ∈ addlCounters c kvs, c ≤ x.1 := by
  induction kvs with
  | nil => intro c; exact ⟨List.sorted_nil, by intro x hx; cases hx⟩
  | cons kv rest ih =>
    intro c
    obtain ⟨hs, hge⟩ := ih (c + 1)
    constructor
    · rw [show addlCounters c (kv :: rest) =
        (c, kv.1, kv.2) :: addlCounters (c + 1) rest from rfl, List.sorted_cons]
      exact ⟨fun b hb => Nat.le_trans (Nat.le_succ c) (hge b hb), hs⟩
    · intro x hx
      rw [show addlCounters c (kv :: rest) =
        (c, kv.1, kv.2) :: addlCounters (c + 1) rest from rfl] at hx
      rcases List.mem_cons.mp hx with h | h
      · rw [h]
      · exact Nat.le_trans (Nat.le_succ c) (hge x h)

/-- Rendering the `additional` tuples forgets the counters and keeps the
declaration order of the keyword=value pairs. -/
theorem addlCounters_map (kvs : List (Line × Line)) :
    ∀ c : ℕ, (addlCounters c kvs).map (fun t =>
        ", ".data ++ t.2.1 ++ "=\x27".data ++ t.2.2 ++ "\x27".data) =
      kvs.map (fun t =>
        ", ".data ++ t.1 ++ "=\x27".data ++ t.2 ++ "\x27".data) := by
  induction kvs with
  | nil => intro c; rfl
  | cons kv rest ih =>
    intro c
    simp only [addlCounters, List.map_cons, ih (c + 1)]

/-- C8: the rendered run directive opens with the primary run keyword and
its method and then lists the `additional` keyword=value pairs in their
declaration order (here shown both with and without an `additional`
entry). -/
theorem C8_run_directive_order (k v : Line) (kvs : List (Line × Line))
    (hk : k ≠ "additional".data) :
    add_run [(k, RunVal.str v), ("additional".data, RunVal.addl kvs)] =
      some (k ++ "(\x27".data ++ v ++ "\x27".data ++
        (kvs.map (fun t =>
          ", ".data ++ t.1 ++ "=\x27".data ++ t.2 ++ "\x27".data)).flatten ++
        ")".data) ∧
    add_run [(k, RunVal.str v)] =
      some (k ++ "(\x27".data ++ v ++ "\x27".data ++ ")".data) := by
  constructor
  · have hflat :
        ([(k, RunVal.str v), ("additional".data, RunVal.addl kvs)].flatMap
          runEntryTuples) = (0, k, v) :: addlCounters 1 kvs := by
      simp [runEntryTuples, hk, runScalar, runAddl]
    have hsorted : List.Sorted countLE ((0, k, v) :: addlCounters 1 kvs) := by
      rw [List.sorted_cons]
      exact ⟨fun b hb => Nat.zero_le b.1, (addlCounters_sorted_ge kvs 1).1⟩
    rw [add_run, hflat, hsorted.insertionSort_eq]
    show some (k ++ "(\x27".data ++ v ++ "\x27".data ++
      ((addlCounters 1 kvs).map (fun t =>
        ", ".data ++ t.2.1 ++ "=\x27".data ++ t.2.2 ++ "\x27".data)).flatten ++
      ")".data) = _
    rw [addlCounters_map kvs 1]
  · have hflat : ([(k, RunVal.str v)].flatMap runEntryTuples) = [(0, k, v)] := by
      simp [runEntryTuples, hk, runScalar]
    have hsorted : List.Sorted countLE [(0, k, v)] := List.sorted_singleton _
    rw [add_run, hflat, hsorted.insertionSort_eq]
    show some (k ++ "(\x27".data ++ v ++ "\x27".data ++
      (([] : List (ℕ × Line × Line)).map (fun t =>
        ", ".data ++ t.2.1 ++ "=\x27".data ++ t.2.2 ++ "\x27".data)).flatten ++
      ")".data) = _
    simp

/-- C8 witness: the docstring example — run `{optimize: scf}` with
`additional = {dertype: energy}` renders `optimize('scf', dertype='energy')`
with the additional pair after the primary pair. -/
theorem C8_witness :
    ("optimize".data ≠ "additional".data) ∧
    (add_run [("optimize".data, RunVal.str "scf".data),
        ("additional".data, RunVal.addl [("dertype".data, "energy".data)])] =
      some ("optimize".data ++ "(\x27".data ++ "scf".data ++ "\x27".data ++
        ([("dertype".data, "energy".data)].map (fun t =>
          ", ".data ++ t.1 ++ "=\x27".data ++ t.2 ++ "\x27".data)).flatten ++
        ")".data) ∧
      add_run [("optimize".data, RunVal.str "scf".data)] =
        some ("optimize".data ++ "(\x27".data ++ "scf".data ++ "\x27".data ++
          ")".data)) ∧
    add_run [("optimize".data, RunVal.str "scf".data),
        ("additional".data, RunVal.addl [("dertype".data, "energy".data)])] =
      some "optimize(\x27scf\x27, dertype=\x27energy\x27)".data :=
  ⟨by decide, C8_run_directive_order _ _ _ (by decide), by decide⟩

/-- If a row has five fields and a recognisable path, the loop body
extends the groups dict and continues. -/
theorem group_files_row_ok (groups : List (Line × List JobRow)) (line : Line)
    (h : rowOk line = true) :
    ∃ g2, group_files_row groups line = .ok g2 := by
  unfold rowOk at h
  unfold group_files_row
  rcases hp : parseRow5 line with _ | ⟨f, p, b, hf, m⟩
  · rw [hp] at h
    replace h : false = true := h
    exact Bool.noConfusion h
  · rw [hp] at h
    replace h : (split_path p).isSome = true := h
    show ∃ g2,
      (match split_path p with
        | none => GroupsResult.err "UnboundLocalError: path_to_mol".data
        | some (molecule, path_to_file) =>
          GroupsResult.ok
            (addToGroups groups molecule [path_to_file ++ '/' :: f, b, hf, m])) =
        GroupsResult.ok g2
    rcases hs : split_path p with _ | ⟨mol, ptf⟩
    · rw [hs] at h
      simp at h
    · exact ⟨_, rfl⟩

/-- C9 counterexample: a four-line CSV (header, good row, corrupt row, good
row) makes `group_files` abort with the unpacking error — the remaining
good record is dropped — whereas deleting the corrupt row yields the full
two-system table.  The claim that the pass continues past one unparseable
record and still reports the rest is therefore false. -/
theorem C9_counterexample :
    group_files
      ["file,path,basis,HF,MP2\n".data,
       "spec.log,c4mim/ac/1/spec/,CCT,-1.0,-2.0\n".data,
       "this row is corrupt\n".data,
       "spec.log,c4mim/ac/2/spec/,CCT,-1.1,-2.1\n".data] true =
      .err "ValueError: line does not split into five fields".data ∧
    group_files
      ["file,path,basis,HF,MP2\n".data,
       "spec.log,c4mim/ac/1/spec/,CCT,-1.0,-2.0\n".data,
       "spec.log,c4mim/ac/2/spec/,CCT,-1.1,-2.1\n".data] true =
      .ok [("c4mim/ac/1".data,
              [["/spec.log".data, "CCT".data, "-1.0".data, "-2.0\n".data]]),
           ("c4mim/ac/2".data,
              [["/spec.log".data, "CCT".data, "-1.1".data, "-2.1\n".data]])] := by
  constructor
  · decide
  · decide

/-- C9 (amended): the aggregation pass aborts on the first unparseable
record — the `ValueError` raised by unpacking `line.split(',')` propagates
out of `group_files`, and neither the remaining rows nor the rows already
read survive; there is no isolate-and-continue handling. -/
theorem C9_amended_abort (hdr bad : Line) (pre post : List Line)
    (hpre : ∀ l ∈ pre, rowOk l = true) (hbad : parseRow5 bad = none) :
    group_files (hdr :: pre ++ bad :: post) true =
      .err "ValueError: line does not split into five fields".data := by
  have key : ∀ (pre2 : List Line), (∀ l ∈ pre2, rowOk l = true) →
      ∀ groups, group_files_loop groups (pre2 ++ bad :: post) =
        .err "ValueError: line does not split into five fields".data := by
    intro pre2
    induction pre2 with
    | nil =>
      intro _ groups
      show group_files_loop groups (bad :: post) = _
      unfold group_files_loop group_files_row
      rw [hbad]
    | cons l ls ih =>
      intro hpre2 groups
      obtain ⟨g2, hg2⟩ :=
        group_files_row_ok groups l (hpre2 l (List.mem_cons_self l ls))
      show group_files_loop groups (l :: (ls ++ bad :: post)) = _
      unfold group_files_loop
      rw [hg2]
      exact ih (fun x hx => hpre2 x (List.mem_cons_of_mem l hx)) g2
  show group_files_loop [] ((hdr :: pre ++ bad :: post).drop 1) = _
  exact key pre hpre []

/-- C9 witness: the amended abort behaviour at the counterexample's input. -/
theorem C9_witness :
    (∀ l ∈ ["spec.log,c4mim/ac/1/spec/,CCT,-1.0,-2.0\n".data], rowOk l = true) ∧
    parseRow5 "this row is corrupt\n".data = none ∧
    group_files
      ("file,path,basis,HF,MP2\n".data ::
        ["spec.log,c4mim/ac/1/spec/,CCT,-1.0,-2.0\n".data] ++
        "this row is corrupt\n".data ::
        ["spec.log,c4mim/ac/2/spec/,CCT,-1.1,-2.1\n".data]) true =
      .err "ValueError: line does not split into five fields".data :=
  ⟨by decide, by decide,
    C9_amended_abort _ _ _ _ (by decide) (by decide)⟩

/-- C2: for a log whose text contains the normal-termination marker, is
classified non-FMO, and contains at least two `TOTAL ENERGY =` lines,
`get_data` returns a record whose single extracted energy is the value
parsed from the LAST such line. -/
theorem C2_last_energy_occurrence (lines : List Line)
    (hcomp : completed lines = true)
    (hfmo : (calc_type lines).1 = false)
    (hocc : 2 ≤ (lines.filter (fun l => pyIn "TOTAL ENERGY =".data l)).length) :
    ∃ d, get_data lines = some d ∧
      extracted d =
        ((lines.filter (fun l => pyIn "TOTAL ENERGY =".data l)).getLast?).map
          (fun m => pyFloat (pyLastWord m)) := by
  have hne : lines.filter (fun l => pyIn "TOTAL ENERGY =".data l) ≠ [] := by
    intro h
    rw [h] at hocc
    simp at hocc
  obtain ⟨m, hm⟩ :
      ∃ m, (lines.filter (fun l => pyIn "TOTAL ENERGY =".data l)).getLast? = some m :=
    Option.isSome_iff_exists.mp (List.getLast?_isSome.mpr hne)
  have hval : (scanNonFmo lines).2 = some (pyFloat (pyLastWord m)) := by
    rw [scanNonFmo_snd, foldl_overwrite_last, hm]
  rcases hct : calc_type lines with ⟨fmo, mp2, scs⟩
  have hfmo2 : fmo = false := by
    have h := hfmo
    rw [hct] at h
    exact h
  subst hfmo2
  unfold get_data
  rw [hct]
  simp only [Bool.false_and, Bool.not_false, if_false, if_true,
    Bool.false_eq_true, ite_false, ite_true]
  by_cases hsm : (scs || mp2) = true
  · rw [if_pos hsm]
    exact ⟨_, rfl, by simp [extracted, hval, hm]⟩
  · rw [if_neg hsm]
    exact ⟨_, rfl, by simp [extracted, hval, hm]⟩

/-- C2 witness: scenario B of the spec — a terminated non-FMO log reporting
total energies -100.0 then -100.5 extracts -100.5 (the last occurrence). -/
theorem C2_witness :
    completed
      [" INPUT CARD> $BASIS GBASIS=CCD $END\n".data,
       "       TOTAL ENERGY =    -100.0\n".data,
       "       TOTAL ENERGY =    -100.5\n".data,
       " EXECUTION OF GAMESS TERMINATED NORMALLY\n".data] = true ∧
    (calc_type
      [" INPUT CARD> $BASIS GBASIS=CCD $END\n".data,
       "       TOTAL ENERGY =    -100.0\n".data,
       "       TOTAL ENERGY =    -100.5\n".data,
       " EXECUTION OF GAMESS TERMINATED NORMALLY\n".data]).1 = false ∧
    2 ≤ (([" INPUT CARD> $BASIS GBASIS=CCD $END\n".data,
       "       TOTAL ENERGY =    -100.0\n".data,
       "       TOTAL ENERGY =    -100.5\n".data,
       " EXECUTION OF GAMESS TERMINATED NORMALLY\n".data]).filter
        (fun l => pyIn "TOTAL ENERGY =".data l)).length ∧
    (∃ d, get_data
        [" INPUT CARD> $BASIS GBASIS=CCD $END\n".data,
         "       TOTAL ENERGY =    -100.0\n".data,
         "       TOTAL ENERGY =    -100.5\n".data,
         " EXECUTION OF GAMESS TERMINATED NORMALLY\n".data] = some d ∧
      extracted d =
        ((([" INPUT CARD> $BASIS GBASIS=CCD $END\n".data,
         "       TOTAL ENERGY =    -100.0\n".data,
         "       TOTAL ENERGY =    -100.5\n".data,
         " EXECUTION OF GAMESS TERMINATED NORMALLY\n".data]).filter
          (fun l => pyIn "TOTAL ENERGY =".data l)).getLast?).map
          (fun m => pyFloat (pyLastWord m))) ∧
    pyFloat (pyLastWord "       TOTAL ENERGY =    -100.5\n".data) = -201/2 ∧
    pyFloat (pyLastWord "       TOTAL ENERGY =    -100.0\n".data) = -100 := by
  refine ⟨by decide, by decide, by decide,
    C2_last_energy_occurrence _ (by decide) (by decide) (by decide), ?_, ?_⟩
  · have h1 : pyLastWord "       TOTAL ENERGY =    -100.5\n".data = "-100.5".data := by
      decide
    have h2 : pySplitOn '.' "100.5".data = ["100".data, "5".data] := by decide
    have h3 : digitsVal "100".data = 100 := by decide
    have h4 : digitsVal "5".data = 5 := by decide
    rw [h1]
    show (if ("-100.5".data).head? = some '-' then (-1 : ℚ) else 1) * _ = -201/2
    norm_num [pyFloat, h2, h3, h4]
  · have h1 : pyLastWord "       TOTAL ENERGY =    -100.0\n".data = "-100.0".data := by
      decide
    have h2 : pySplitOn '.' "100.0".data = ["100".data, "0".data] := by decide
    have h3 : digitsVal "100".data = 100 := by decide
    have h4 : digitsVal "0".data = 0 := by decide
    rw [h1]
    norm_num [pyFloat, h2, h3, h4]

/-- C5 counterexample: the claim says an explicitly user-supplied `scsopo` is
never overridden, but with `gbasis = 'cct'` and user-supplied
`scsopo = 2.0` the method overwrites the value with 1.64. -/
theorem C5_counterexample :
    (make_automatic_changes ⟨"cct".data, 2⟩).scsopo ≠ 2 := by
  have h : pyLower "cct".data = "cct".data := by decide
  simp only [make_automatic_changes, h, if_pos]
  norm_num

/-- C5 (amended): whenever `gbasis` lower-cases to `'cct'` the correction sets
`scsopo` to 1.64 unconditionally — including over an explicit user value —
and for any other basis the settings are left untouched. -/
theorem C5_amended (inp : GamessInput) :
    (make_automatic_changes inp).scsopo =
      (if pyLower inp.gbasis = "cct".data then 164/100 else inp.scsopo) ∧
    (make_automatic_changes inp).gbasis = inp.gbasis := by
  unfold make_automatic_changes
  split <;> simp_all

end Autochem
